import Mathlib

/-
Shallow embedding of the data-quality engine and the warehouse load engine of
the bbc-news ETL pipeline, translated from
  scripts/utils/data_quality.py  (class DataQuality),
  scripts/etl/load.py            (class DataLoader),
  main.py                        (class DataPipeline),
with theorems settling the specification claims about them.

Modelling conventions:
* pandas NaN, NaT and Python None are all modelled by Value.null.
* Python floats and pandas timestamps are modelled exactly, as rationals
  (timestamps count seconds since the epoch).
* A pandas DataFrame is modelled in the two views matching how each source
  function accesses it: a row-major view (lists of name-value pairs, as
  produced by iterrows and row.get) for duplicate handling and the loaders,
  and a column-major view (named, dtyped columns) for null handling and
  validation.
* Logging is modelled as the list of emitted log levels where a claim talks
  about logging; functions whose logging no claim mentions drop it.
-/

namespace ETL

/- A cell value. Value.null stands for NaN / NaT / None. -/
inductive Value where
  | null
  | str (s : String)
  | num (q : ℚ)
  | date (t : ℚ)
  | bool (b : Bool)
deriving DecidableEq, Repr

/- Row-major view of a DataFrame row: the list of (column, value) pairs. -/
abbrev Row := List (String × Value)

/- Models row.get(k) (and row[k] where the column is known to exist): the
value stored under the column name, Value.null when the column is absent. -/
def rowGet (r : Row) (k : String) : Value :=
  match r.find? (fun p => p.1 == k) with
  | some p => p.2
  | none => Value.null

/- The rows flagged by df.duplicated(keep=first): every row that is
value-equal to an earlier row, in order. seen carries the earlier rows. -/
def dupRows (seen : List Row) : List Row → List Row
  | [] => []
  | r :: rest =>
    if r ∈ seen then r :: dupRows (r :: seen) rest
    else dupRows (r :: seen) rest

/- One row of the combined duplicate report built by check_duplicates:
the owning dataset name, the duplicated row, and the full-row group size
(the Jumlah Duplikasi column). The Dataset column is always present in the
report (check_duplicates initialises the frame with that column). -/
structure DupEntry where
  dataset : String
  row : Row
  total : Nat
deriving DecidableEq, Repr

/- DataQuality.check_duplicates: for each dataset, if it has any row that
duplicates an earlier row, report every such occurrence annotated with the
dataset name and the group size. Datasets with no duplicate contribute
nothing. -/
def checkDuplicates (ds : List (String × List Row)) : List DupEntry :=
  ds.flatMap (fun p =>
    if (dupRows [] p.2).length > 0 then
      (dupRows [] p.2).map (fun r => ⟨p.1, r, p.2.count r⟩)
    else [])

/- df.drop_duplicates(subset=url, keep=first): keep a row iff its url value
was not seen on an earlier kept-or-dropped row. seen carries earlier urls. -/
def dedupByUrl (seen : List Value) : List Row → List Row
  | [] => []
  | r :: rest =>
    if rowGet r "url" ∈ seen then dedupByUrl seen rest
    else r :: dedupByUrl (rowGet r "url" :: seen) rest

/- DataQuality.handle_duplicates: for each distinct dataset name present in
the report, replace that dataset by its url-deduplicated rows; every other
dataset is untouched. (The early return when the report lacks a Dataset
column never fires on reports built by check_duplicates, which always
initialises that column.) -/
def handleDuplicates (rep : List DupEntry) (ds : List (String × List Row)) :
    List (String × List Row) :=
  let names := (rep.map (fun e => e.dataset)).dedup
  ds.map (fun p => if p.1 ∈ names then (p.1, dedupByUrl [] p.2) else p)

/- check_duplicates followed by handle_duplicates, as transform_data runs
them. -/
def checkThenRemove (ds : List (String × List Row)) : List (String × List Row) :=
  handleDuplicates (checkDuplicates ds) ds

/- The url column of a row set. -/
def urlsOf (rows : List Row) : List Value := rows.map (fun r => rowGet r "url")

/- Whether some url value occurs on two distinct rows. -/
def hasRepeatedUrl (rows : List Row) : Bool := decide (¬ (urlsOf rows).Nodup)

/- Whether the row set contains at least one full-row duplicate, i.e.
whether check_duplicates reports it. -/
def hasFullDup (rows : List Row) : Bool := decide (0 < (dupRows [] rows).length)

/- Dictionary lookup of a dataset by name. -/
def lookupDs (ds : List (String × List Row)) (name : String) :
    Option (List Row) :=
  match ds.find? (fun p => p.1 == name) with
  | some p => some p.2
  | none => none

theorem dedupByUrl_notMem_seen (rows : List Row) :
    ∀ seen u, u ∈ urlsOf (dedupByUrl seen rows) → u ∉ seen := by
  induction rows with
  | nil => intro seen u h; simp [dedupByUrl, urlsOf] at h
  | cons r rest ih =>
    intro seen u h
    by_cases hc : rowGet r "url" ∈ seen
    · rw [dedupByUrl, if_pos hc] at h
      exact ih seen u h
    · rw [dedupByUrl, if_neg hc] at h
      simp only [urlsOf, List.map_cons, List.mem_cons] at h
      rcases h with h | h
      · rw [h]; exact hc
      · intro hu
        exact ih _ u h (List.mem_cons_of_mem _ hu)

theorem dedupByUrl_urls_nodup (rows : List Row) :
    ∀ seen, (urlsOf (dedupByUrl seen rows)).Nodup := by
  induction rows with
  | nil => intro seen; simp [dedupByUrl, urlsOf]
  | cons r rest ih =>
    intro seen
    by_cases hc : rowGet r "url" ∈ seen
    · rw [dedupByUrl, if_pos hc]; exact ih seen
    · rw [dedupByUrl, if_neg hc]
      simp only [urlsOf, List.map_cons, List.nodup_cons]
      refine ⟨?_, ih _⟩
      intro hmem
      exact dedupByUrl_notMem_seen rest _ _ hmem (List.mem_cons_self _ _)

theorem find?_key_of_nodup (ds : List (String × List Row)) (name : String)
    (rows : List Row) (hk : (ds.map Prod.fst).Nodup) (hm : (name, rows) ∈ ds) :
    ds.find? (fun p => p.1 == name) = some (name, rows) := by
  induction ds with
  | nil => cases hm
  | cons a tl ih =>
    rw [List.map_cons] at hk
    have hk1 : a.1 ∉ tl.map Prod.fst := (List.nodup_cons.mp hk).1
    have hk2 : (tl.map Prod.fst).Nodup := (List.nodup_cons.mp hk).2
    rcases List.mem_cons.mp hm with hm | hm
    · rw [← hm]
      exact List.find?_cons_of_pos _ (by simp)
    · have hne : (a.1 == name) = false := by
        simp only [beq_eq_false_iff_ne, ne_eq]
        intro he
        exact hk1 (by rw [he]; exact List.mem_map.mpr ⟨(name, rows), hm, rfl⟩)
      rw [List.find?_cons_of_neg _ (by simp [hne])]
      exact ih hk2 hm

theorem keyVal_unique (ds : List (String × List Row)) (name : String)
    (rows rows2 : List Row) (hk : (ds.map Prod.fst).Nodup)
    (hm : (name, rows) ∈ ds) (hm2 : (name, rows2) ∈ ds) : rows = rows2 := by
  have h1 := find?_key_of_nodup ds name rows hk hm
  have h2 := find?_key_of_nodup ds name rows2 hk hm2
  rw [h1] at h2
  injection h2 with h3
  injection h3

theorem mem_checkDuplicates_names (ds : List (String × List Row))
    (name : String) (rows : List Row) (hk : (ds.map Prod.fst).Nodup)
    (hm : (name, rows) ∈ ds) :
    (name ∈ (checkDuplicates ds).map (fun e => e.dataset)) ↔
      hasFullDup rows = true := by
  constructor
  · intro h
    rcases List.mem_map.mp h with ⟨e, he, hed⟩
    rcases List.mem_flatMap.mp he with ⟨p, hp, hpe⟩
    by_cases hz : (dupRows [] p.2).length > 0
    · rw [if_pos hz] at hpe
      rcases List.mem_map.mp hpe with ⟨r, _, her⟩
      have hp1 : p.1 = name := by rw [← hed, ← her]
      have hmp : (name, p.2) ∈ ds := by
        have : p = (name, p.2) := by
          rw [Prod.ext_iff]; exact ⟨hp1, rfl⟩
        rw [← this]; exact hp
      have hre : rows = p.2 := keyVal_unique ds name rows p.2 hk hm hmp
      simp only [hasFullDup, decide_eq_true_eq]
      rw [hre]; exact hz
    · rw [if_neg hz] at hpe
      cases hpe
  · intro h
    have hz : 0 < (dupRows [] rows).length := by
      simpa only [hasFullDup, decide_eq_true_eq] using h
    rcases List.exists_mem_of_length_pos hz with ⟨r, hr⟩
    refine List.mem_map.mpr ⟨⟨name, r, rows.count r⟩, ?_, rfl⟩
    refine List.mem_flatMap.mpr ⟨(name, rows), hm, ?_⟩
    rw [if_pos hz]
    exact List.mem_map.mpr ⟨r, hr, rfl⟩

theorem handleDuplicates_eq (rep : List DupEntry) (ds : List (String × List Row)) :
    handleDuplicates rep ds = ds.map (fun p =>
      (p.1, if p.1 ∈ (rep.map (fun e => e.dataset)).dedup then
        dedupByUrl [] p.2 else p.2)) := by
  unfold handleDuplicates
  refine congrArg (fun f => ds.map f) ?_
  funext p
  by_cases hp : p.1 ∈ (rep.map (fun e => e.dataset)).dedup
  · rw [if_pos hp, if_pos hp]
  · rw [if_neg hp, if_neg hp]

theorem lookupDs_map (g : String → List Row → List Row)
    (ds : List (String × List Row)) (name : String) (rows : List Row)
    (hk : (ds.map Prod.fst).Nodup) (hm : (name, rows) ∈ ds) :
    lookupDs (ds.map (fun p => (p.1, g p.1 p.2))) name = some (g name rows) := by
  unfold lookupDs
  rw [List.find?_map]
  have hc : ((fun p : String × List Row => p.1 == name) ∘
      (fun p : String × List Row => (p.1, g p.1 p.2))) =
      (fun p : String × List Row => p.1 == name) := by
    funext p; rfl
  rw [hc, find?_key_of_nodup ds name rows hk hm]
  rfl

/- Shared characterisation: after check_duplicates plus handle_duplicates, a
dataset is url-deduplicated exactly when it contained a full-row duplicate,
and is untouched otherwise. -/
theorem checkThenRemove_lookup (ds : List (String × List Row)) (name : String)
    (rows : List Row) (hk : (ds.map Prod.fst).Nodup) (hm : (name, rows) ∈ ds) :
    lookupDs (checkThenRemove ds) name =
      some (if hasFullDup rows then dedupByUrl [] rows else rows) := by
  unfold checkThenRemove
  rw [handleDuplicates_eq]
  rw [lookupDs_map (fun n rs =>
    if n ∈ ((checkDuplicates ds).map (fun e => e.dataset)).dedup then
      dedupByUrl [] rs else rs) ds name rows hk hm]
  by_cases hd : hasFullDup rows = true
  · have hmem : name ∈ ((checkDuplicates ds).map (fun e => e.dataset)).dedup :=
      List.mem_dedup.mpr ((mem_checkDuplicates_names ds name rows hk hm).mpr hd)
    rw [if_pos hmem, if_pos hd]
  · have hmem : name ∉ ((checkDuplicates ds).map (fun e => e.dataset)).dedup := by
      intro hc
      exact hd ((mem_checkDuplicates_names ds name rows hk hm).mp (List.mem_dedup.mp hc))
    rw [if_neg hmem, if_neg hd]

/- Two rows with the same url but different titles: not full-row duplicates,
so check_duplicates reports nothing about their dataset. -/
def c1row1 : Row := [("url", Value.str "http://x/1"), ("title", Value.str "a")]

def c1row2 : Row := [("url", Value.str "http://x/1"), ("title", Value.str "b")]

def c1rows : List Row := [c1row1, c1row2]

def c1ds : List (String × List Row) := [("d", c1rows)]

/- A dataset with a genuine full-row duplicate, used as witness input. -/
def c1wrows : List Row := [c1row1, c1row1, c1row2]

def c1wds : List (String × List Row) := [("w", c1wrows)]

/-- C1, counterexample: on a dataset holding two rows with identical url but
differing other fields, check_duplicates reports nothing (they are not
full-row duplicates), handle_duplicates therefore leaves the dataset
untouched, and both rows survive with the url repeated — contradicting the
claim that zero repeated urls remain and that exactly one row survives. -/
theorem c1_counterexample :
    checkThenRemove c1ds = c1ds ∧ hasRepeatedUrl c1rows = true ∧
      c1rows.length = 2 := by decide

/-- C1 (amended): after check_duplicates plus handle_duplicates, a dataset
that contained at least one full-row duplicate is left with zero rows having
a repeated url value; a dataset without any full-row duplicate — such as two
rows sharing a url but differing in other fields — is left entirely
unchanged, so both such rows survive. -/
theorem c1_checkRemove_urls (ds : List (String × List Row)) (name : String)
    (rows : List Row) (hk : (ds.map Prod.fst).Nodup) (hm : (name, rows) ∈ ds) :
    (hasFullDup rows = true → ∃ rows2,
      lookupDs (checkThenRemove ds) name = some rows2 ∧
        hasRepeatedUrl rows2 = false) ∧
    (hasFullDup rows = false →
      lookupDs (checkThenRemove ds) name = some rows) := by
  constructor
  · intro hd
    refine ⟨dedupByUrl [] rows, ?_, ?_⟩
    · rw [checkThenRemove_lookup ds name rows hk hm, if_pos hd]
    · have hnd := dedupByUrl_urls_nodup rows []
      simp only [hasRepeatedUrl, decide_eq_false_iff_not, not_not]
      exact hnd
  · intro hd
    rw [checkThenRemove_lookup ds name rows hk hm, if_neg (by rw [hd]; exact Bool.false_ne_true)]

/-- C1 witness: concrete run of the amended claim on a dataset with a
full-row duplicate; the surviving rows carry pairwise distinct urls. -/
theorem c1_checkRemove_urls_witness :
    ∃ rows2, lookupDs (checkThenRemove c1wds) "w" = some rows2 ∧
      hasRepeatedUrl rows2 = false :=
  (c1_checkRemove_urls c1wds "w" c1wrows (by decide) (by decide)).1 (by decide)

/-- C9: if a dataset contains at least one full-row duplicate (so it appears
in the duplicate report), handle_duplicates replaces it by its
url-deduplicated rows — dropping every row whose url matches an earlier row,
reported or not — while a dataset that has repeated urls but no full-row
duplicate is left entirely unchanged. -/
theorem c9_removeDuplicates_by_url (ds : List (String × List Row))
    (name : String) (rows : List Row) (hk : (ds.map Prod.fst).Nodup)
    (hm : (name, rows) ∈ ds) :
    (hasFullDup rows = true →
      lookupDs (checkThenRemove ds) name = some (dedupByUrl [] rows)) ∧
    (hasFullDup rows = false → hasRepeatedUrl rows = true →
      lookupDs (checkThenRemove ds) name = some rows) := by
  constructor
  · intro hd
    rw [checkThenRemove_lookup ds name rows hk hm, if_pos hd]
  · intro hd _
    rw [checkThenRemove_lookup ds name rows hk hm, if_neg (by rw [hd]; exact Bool.false_ne_true)]

/-- C9 witness: the dataset with two url-equal but unequal rows has no
full-row duplicate and is untouched by the check-then-remove pipeline. -/
theorem c9_removeDuplicates_by_url_witness :
    lookupDs (checkThenRemove c1ds) "d" = some c1rows :=
  (c9_removeDuplicates_by_url c1ds "d" c1rows (by decide) (by decide)).2
    (by decide) (by decide)

/- ------------------------------------------------------------------ -/
/- Warehouse load engine: scripts/etl/load.py                          -/
/- ------------------------------------------------------------------ -/

/- A calendar date as produced by DataLoader.parse_date. -/
structure PDate where
  day : Nat
  month : Nat
  year : Nat
deriving DecidableEq, Repr

/- Character-level split on a separator, modelling str.split(sep). -/
def splitChars (sep : Char) : List Char → List (List Char)
  | [] => [[]]
  | c :: cs =>
    if c = sep then [] :: splitChars sep cs
    else
      match splitChars sep cs with
      | [] => [[c]]
      | h :: t => (c :: h) :: t

/- Python str.strip: drop leading and trailing whitespace. -/
def trimChars (l : List Char) : List Char :=
  ((l.dropWhile Char.isWhitespace).reverse.dropWhile Char.isWhitespace).reverse

/- Parse a non-empty all-digit fragment as a number. -/
def digitsToNat (l : List Char) : Option Nat :=
  if l ≠ [] ∧ l.all Char.isDigit then
    some (l.foldl (fun a c => a * 10 + (c.toNat - 48)) 0)
  else none

/- Strict day-first parse of a date string in the %d-%m-%Y shape of
parse_date. The permissive pandas fallback parser accepts further formats;
strings outside this grammar are modelled as the exception path (none),
which the loaders turn into a failed load. -/
def parseDateStr (s : String) : Option PDate :=
  match splitChars '-' s.data with
  | [d, m, y] =>
    match digitsToNat d, digitsToNat m, digitsToNat y with
    | some dd, some mm, some yy =>
      if 1 ≤ dd ∧ dd ≤ 31 ∧ 1 ≤ mm ∧ mm ≤ 12 then some ⟨dd, mm, yy⟩ else none
    | _, _, _ => none
  | _ => none

/- parse_date applied to a cell value; non-string values fail. -/
def parseDate (v : Value) : Option PDate :=
  match v with
  | Value.str s => parseDateStr s
  | _ => none

/- One row of fact_news. -/
structure FactRow where
  news_id : Nat
  date_id : Nat
  category_id : Nat
  source_category_id : Nat
  tag_id : Nat
  is_live : Bool
  in_pagination : Value
deriving DecidableEq, Repr

/- The warehouse: each dimension table as its list of natural keys in
insertion order (the surrogate key is the 0-based position), dim_article as
(title, description, url) keyed on url, plus fact_news. -/
structure Warehouse where
  dim_date : List PDate
  dim_category : List Value
  dim_source_category : List Value
  dim_tag : List String
  dim_article : List (Value × Value × Value)
  fact_news : List FactRow
deriving DecidableEq, Repr

def emptyW : Warehouse := ⟨[], [], [], [], [], []⟩

/- INSERT ... WHERE NOT EXISTS on a single-column natural key. -/
def insKey {α : Type} [DecidableEq α] (l : List α) (k : α) : List α :=
  if k ∈ l then l else l ++ [k]

/- dim_article INSERT ... WHERE NOT EXISTS (url): the existence check is on
the url component only. -/
def insArticle (l : List (Value × Value × Value)) (t d u : Value) :
    List (Value × Value × Value) :=
  if u ∈ l.map (fun a => a.2.2) then l else l ++ [(t, d, u)]

/- SELECT id FROM table WHERE key = v: 0-based first position of the key. -/
def lookupIdx {α : Type} [DecidableEq α] : List α → α → Option Nat
  | [], _ => none
  | x :: xs, k => if x = k then some 0 else (lookupIdx xs k).map (fun i => i + 1)

/- SQL equality never matches a NULL parameter, so a null key is always a
lookup miss. -/
def sqlFind (l : List Value) (v : Value) : Option Nat :=
  if v = Value.null then none else lookupIdx l v

/- The tag splitting of both loaders: split on commas, strip, drop empty
fragments. -/
def splitTags (s : String) : List String :=
  ((splitChars ',' s.data).map (fun cs => String.mk (trimChars cs))).filter
    (fun t => decide (t ≠ ""))

/- The dim_tag loop of load_to_dimension_tables: a NaN tags field is
skipped, a non-null non-string field raises on .split (aborting the load),
a string field inserts each fragment if absent. -/
def stepTags (W : Warehouse) (v : Value) : Warehouse × Bool :=
  match v with
  | Value.null => (W, true)
  | Value.str s => ({ W with dim_tag := (splitTags s).foldl insKey W.dim_tag }, true)
  | _ => (W, false)

/- The dim_date insert of one row. -/
def stepDate (W : Warehouse) (d : PDate) : Warehouse :=
  { W with dim_date := insKey W.dim_date d }

/- The dim_category insert: only when the category cell is non-null. -/
def stepCategory (W : Warehouse) (r : Row) : Warehouse :=
  if rowGet r "category" ≠ Value.null then
    { W with dim_category := insKey W.dim_category (rowGet r "category") }
  else W

/- The dim_source_category insert: only when the cell is non-null. -/
def stepSource (W : Warehouse) (r : Row) : Warehouse :=
  if rowGet r "source_category" ≠ Value.null then
    { W with dim_source_category := insKey W.dim_source_category (rowGet r "source_category") }
  else W

/- The dim_article insert: only when title, description and url are all
non-null; the existence guard is on url. -/
def stepArticle (W : Warehouse) (r : Row) : Warehouse :=
  if rowGet r "title" ≠ Value.null ∧ rowGet r "description" ≠ Value.null ∧
      rowGet r "url" ≠ Value.null then
    { W with dim_article := insArticle W.dim_article (rowGet r "title") (rowGet r "description") (rowGet r "url") }
  else W

/- Processing of a single row inside load_to_dimension_tables: skip the row
when updated is NaN; raise (abort) when the date does not parse; otherwise
insert-if-absent into dim_date, then dim_category and dim_source_category
when non-null, then each tag, then dim_article only when title, description
and url are all non-null. -/
def loadDimRow (W : Warehouse) (r : Row) : Warehouse × Bool :=
  if rowGet r "updated" = Value.null then (W, true)
  else
    match parseDate (rowGet r "updated") with
    | none => (W, false)
    | some d =>
      match stepTags (stepSource (stepCategory (stepDate W d) r) r) (rowGet r "tags") with
      | (W4, false) => (W4, false)
      | (W4, true) => (stepArticle W4 r, true)

/- The row loop of load_to_dimension_tables; commits are per statement, so
an aborting row keeps everything inserted before it. -/
def loadDimsGo : Warehouse → List Row → Warehouse × Bool
  | W, [] => (W, true)
  | W, r :: rest =>
    match loadDimRow W r with
    | (W2, true) => loadDimsGo W2 rest
    | (W2, false) => (W2, false)

inductive LogLevel where
  | info
  | warn
  | error
deriving DecidableEq, Repr

/- DataLoader.load_to_dimension_tables: the loop, then one info log on
success or one error log on the caught exception. The loop body logs
nothing (in particular it never warns). -/
def load_to_dimension_tables (W : Warehouse) (rows : List Row) :
    Warehouse × List LogLevel × Bool :=
  match loadDimsGo W rows with
  | (W2, true) => (W2, [LogLevel.info], true)
  | (W2, false) => (W2, [LogLevel.error], false)

/- row.get with an explicit default, used for in_pagination. -/
def rowGetD (r : Row) (k : String) (dflt : Value) : Value :=
  match r.find? (fun p => p.1 == k) with
  | some p => p.2
  | none => dflt

/- The fact row built for one resolved tag of one source row. -/
def mkFact (nid did cid sid tid : Nat) (r : Row) : FactRow :=
  ⟨nid, did, cid, sid, tid, decide (rowGet r "live" = Value.str "Yes"),
    rowGetD r "in_pagination" (Value.bool false)⟩

/- The conflict key of fact_news. -/
def key5 (f : FactRow) : Nat × Nat × Nat × Nat × Nat :=
  (f.news_id, f.date_id, f.category_id, f.source_category_id, f.tag_id)

/- INSERT ... ON CONFLICT (news_id, date_id, category_id,
source_category_id, tag_id) DO NOTHING. -/
def insertFact (l : List FactRow) (f : FactRow) : List FactRow :=
  if key5 f ∈ l.map key5 then l else l ++ [f]

/- The per-tag loop of load_to_fact_table: a tag lookup miss warns and
skips that tag only; a hit inserts the fact row conflict-safely. -/
def factTagLoop (W : Warehouse) (logs : List LogLevel)
    (nid did cid sid : Nat) (r : Row) : List String → Warehouse × List LogLevel
  | [] => (W, logs)
  | t :: ts =>
    match lookupIdx W.dim_tag t with
    | none => factTagLoop W (logs ++ [LogLevel.warn]) nid did cid sid r ts
    | some tid =>
      factTagLoop
        { W with fact_news := insertFact W.fact_news (mkFact nid did cid sid tid r) }
        logs nid did cid sid r ts

/- Processing of one row inside load_to_fact_table: warn and skip on a NaN
date; raise on an unparseable date; resolve category, source-category, date
and article in that order, where any miss warns and skips the whole row;
then run the tag loop (a NaN tags field contributes nothing, a non-null
non-string one raises). -/
def factRowWork (W : Warehouse) (r : Row) : Warehouse × List LogLevel × Bool :=
  if rowGet r "updated" = Value.null then (W, [LogLevel.warn], true)
  else
    match parseDate (rowGet r "updated") with
    | none => (W, [], false)
    | some d =>
      match sqlFind W.dim_category (rowGet r "category") with
      | none => (W, [LogLevel.warn], true)
      | some cid =>
        match sqlFind W.dim_source_category (rowGet r "source_category") with
        | none => (W, [LogLevel.warn], true)
        | some sid =>
          match lookupIdx W.dim_date d with
          | none => (W, [LogLevel.warn], true)
          | some did =>
            match sqlFind (W.dim_article.map (fun a => a.2.2)) (rowGet r "url") with
            | none => (W, [LogLevel.warn], true)
            | some nid =>
              match rowGet r "tags" with
              | Value.null => (W, [], true)
              | Value.str s =>
                let p := factTagLoop W [] nid did cid sid r (splitTags s)
                (p.1, p.2, true)
              | _ => (W, [], false)

def loadFactsGo : Warehouse → List LogLevel → List Row → Warehouse × List LogLevel × Bool
  | W, logs, [] => (W, logs, true)
  | W, logs, r :: rest =>
    match factRowWork W r with
    | (W2, ls, true) => loadFactsGo W2 (logs ++ ls) rest
    | (W2, ls, false) => (W2, logs ++ ls, false)

/- DataLoader.load_to_fact_table with its final info or error log. -/
def load_to_fact_table (W : Warehouse) (rows : List Row) :
    Warehouse × List LogLevel × Bool :=
  match loadFactsGo W [] rows with
  | (W2, ls, true) => (W2, ls ++ [LogLevel.info], true)
  | (W2, ls, false) => (W2, ls ++ [LogLevel.error], false)

/- The load stage of DataPipeline.run: dimensions first; facts only when
the dimension load reported success. -/
def fullLoad (W : Warehouse) (rows : List Row) : Warehouse × Bool :=
  match load_to_dimension_tables W rows with
  | (W1, _, false) => (W1, false)
  | (W1, _, true) =>
    match load_to_fact_table W1 rows with
    | (W2, _, b) => (W2, b)

/- ------------------------------------------------------------------ -/
/- Pipeline control flow: main.py DataPipeline.run                     -/
/- ------------------------------------------------------------------ -/

inductive PEvent where
  | loadConfig
  | initDb
  | extract
  | transformData
  | loadDims
  | loadFacts
  | closeConn
  | exitFail
  | finishOk
deriving DecidableEq, Repr

/- The event trace of DataPipeline.run as a function of each stage outcome:
every failing stage closes the database connection and exits with a
non-zero status before the next stage starts. -/
def pipelineRun (extractOk transformOk dimOk factOk : Bool) : List PEvent :=
  [PEvent.loadConfig, PEvent.initDb, PEvent.extract] ++
  (if extractOk = false then [PEvent.closeConn, PEvent.exitFail]
   else [PEvent.transformData] ++
     (if transformOk = false then [PEvent.closeConn, PEvent.exitFail]
      else [PEvent.loadDims] ++
        (if dimOk = false then [PEvent.closeConn, PEvent.exitFail]
         else [PEvent.loadFacts] ++
           (if factOk = false then [PEvent.closeConn, PEvent.exitFail]
            else [PEvent.closeConn, PEvent.finishOk]))))

theorem stepDate_fact_news (W : Warehouse) (d : PDate) :
    (stepDate W d).fact_news = W.fact_news := rfl

theorem stepCategory_fact_news (W : Warehouse) (r : Row) :
    (stepCategory W r).fact_news = W.fact_news := by
  unfold stepCategory; split <;> rfl

theorem stepSource_fact_news (W : Warehouse) (r : Row) :
    (stepSource W r).fact_news = W.fact_news := by
  unfold stepSource; split <;> rfl

theorem stepArticle_fact_news (W : Warehouse) (r : Row) :
    (stepArticle W r).fact_news = W.fact_news := by
  unfold stepArticle; split <;> rfl

theorem foldl_insKey_fact_news (ts : List String) :
    ∀ l, (List.foldl insKey l ts) = List.foldl insKey l ts := fun _ => rfl

theorem stepTags_fact_news (W : Warehouse) (v : Value) :
    ((stepTags W v).1).fact_news = W.fact_news := by
  unfold stepTags; split <;> rfl

/- The dimension loaders never touch fact_news. -/
theorem loadDimRow_fact_news (W : Warehouse) (r : Row) :
    ((loadDimRow W r).1).fact_news = W.fact_news := by
  unfold loadDimRow
  split
  · rfl
  · split
    · rfl
    · rename_i d hpd
      split
      · rename_i W4 heq
        have h4 : W4.fact_news = W.fact_news := by
          have := stepTags_fact_news (stepSource (stepCategory (stepDate W d) r) r) (rowGet r "tags")
          rw [heq] at this
          rw [this, stepSource_fact_news, stepCategory_fact_news, stepDate_fact_news]
        exact h4
      · rename_i W4 heq
        have h4 : W4.fact_news = W.fact_news := by
          have := stepTags_fact_news (stepSource (stepCategory (stepDate W d) r) r) (rowGet r "tags")
          rw [heq] at this
          rw [this, stepSource_fact_news, stepCategory_fact_news, stepDate_fact_news]
        rw [stepArticle_fact_news]
        exact h4

theorem loadDimsGo_fact_news (rows : List Row) :
    ∀ W, ((loadDimsGo W rows).1).fact_news = W.fact_news := by
  induction rows with
  | nil => intro W; rfl
  | cons r rest ih =>
    intro W
    unfold loadDimsGo
    cases hw : loadDimRow W r with
    | mk W2 b =>
      have hf : W2.fact_news = W.fact_news := by
        have := loadDimRow_fact_news W r
        rw [hw] at this
        exact this
      cases b
      · exact hf
      · rw [show ((match (W2, true) with
          | (W2, true) => loadDimsGo W2 rest
          | (W2, false) => (W2, false)) : Warehouse × Bool) = loadDimsGo W2 rest from rfl]
        rw [ih W2, hf]

theorem load_to_dimension_tables_fst (W : Warehouse) (rows : List Row) :
    (load_to_dimension_tables W rows).1 = (loadDimsGo W rows).1 := by
  unfold load_to_dimension_tables
  cases hgo : loadDimsGo W rows with
  | mk Wg bg => cases bg <;> rfl

/-- C8: fact loading begins only after the dimension load reported success
over the whole RowSet: when the dimension stage fails, the run never emits
the fact-load event and instead closes the connection and exits with a
non-zero status; accordingly the load stage leaves fact_news exactly as the
dimension stage left it (no fact row inserted). -/
theorem c8_facts_only_after_dims :
    (∀ e t f : Bool,
      (PEvent.loadFacts ∉ pipelineRun e t false f) ∧
      pipelineRun true true false f =
        [PEvent.loadConfig, PEvent.initDb, PEvent.extract, PEvent.transformData,
         PEvent.loadDims, PEvent.closeConn, PEvent.exitFail]) ∧
    (∀ (W : Warehouse) (rows : List Row),
      (load_to_dimension_tables W rows).2.2 = false →
        (fullLoad W rows).1.fact_news = W.fact_news) := by
  constructor
  · decide
  · intro W rows h
    unfold fullLoad
    cases hld : load_to_dimension_tables W rows with
    | mk W1 p =>
      cases p with
      | mk ls b =>
        rw [hld] at h
        simp only at h
        rw [h]
        show W1.fact_news = W.fact_news
        have hfst : W1 = (loadDimsGo W rows).1 := by
          have := load_to_dimension_tables_fst W rows
          rw [hld] at this
          exact this
        rw [hfst]
        exact loadDimsGo_fact_news rows W

/-- C8 witness: a batch whose single row has an unparseable date makes the
dimension stage fail, and the full load leaves fact_news untouched. -/
theorem c8_facts_only_after_dims_witness :
    (fullLoad emptyW [[("updated", Value.str "not-a-date")]]).1.fact_news =
      emptyW.fact_news :=
  c8_facts_only_after_dims.2 emptyW [[("updated", Value.str "not-a-date")]]
    (by decide)

/- Componentwise behaviour of the four scalar dimension steps. -/

theorem stepDate_dim_date (W : Warehouse) (d : PDate) :
    (stepDate W d).dim_date = insKey W.dim_date d := rfl

theorem stepDate_dim_category (W : Warehouse) (d : PDate) :
    (stepDate W d).dim_category = W.dim_category := rfl

theorem stepDate_dim_source (W : Warehouse) (d : PDate) :
    (stepDate W d).dim_source_category = W.dim_source_category := rfl

theorem stepDate_dim_tag (W : Warehouse) (d : PDate) :
    (stepDate W d).dim_tag = W.dim_tag := rfl

theorem stepDate_dim_article (W : Warehouse) (d : PDate) :
    (stepDate W d).dim_article = W.dim_article := rfl

theorem stepCategory_dim_date (W : Warehouse) (r : Row) :
    (stepCategory W r).dim_date = W.dim_date := by
  unfold stepCategory; split <;> rfl

theorem stepCategory_dim_category (W : Warehouse) (r : Row) :
    (stepCategory W r).dim_category =
      if rowGet r "category" ≠ Value.null then
        insKey W.dim_category (rowGet r "category") else W.dim_category := by
  unfold stepCategory; split <;> simp_all

theorem stepCategory_dim_source (W : Warehouse) (r : Row) :
    (stepCategory W r).dim_source_category = W.dim_source_category := by
  unfold stepCategory; split <;> rfl

theorem stepCategory_dim_tag (W : Warehouse) (r : Row) :
    (stepCategory W r).dim_tag = W.dim_tag := by
  unfold stepCategory; split <;> rfl

theorem stepCategory_dim_article (W : Warehouse) (r : Row) :
    (stepCategory W r).dim_article = W.dim_article := by
  unfold stepCategory; split <;> rfl

theorem stepSource_dim_date (W : Warehouse) (r : Row) :
    (stepSource W r).dim_date = W.dim_date := by
  unfold stepSource; split <;> rfl

theorem stepSource_dim_category (W : Warehouse) (r : Row) :
    (stepSource W r).dim_category = W.dim_category := by
  unfold stepSource; split <;> rfl

theorem stepSource_dim_source (W : Warehouse) (r : Row) :
    (stepSource W r).dim_source_category =
      if rowGet r "source_category" ≠ Value.null then
        insKey W.dim_source_category (rowGet r "source_category")
      else W.dim_source_category := by
  unfold stepSource; split <;> simp_all

theorem stepSource_dim_tag (W : Warehouse) (r : Row) :
    (stepSource W r).dim_tag = W.dim_tag := by
  unfold stepSource; split <;> rfl

theorem stepSource_dim_article (W : Warehouse) (r : Row) :
    (stepSource W r).dim_article = W.dim_article := by
  unfold stepSource; split <;> rfl

theorem stepTags_dim_date (W : Warehouse) (v : Value) :
    ((stepTags W v).1).dim_date = W.dim_date := by
  unfold stepTags; split <;> rfl

theorem stepTags_dim_category (W : Warehouse) (v : Value) :
    ((stepTags W v).1).dim_category = W.dim_category := by
  unfold stepTags; split <;> rfl

theorem stepTags_dim_source (W : Warehouse) (v : Value) :
    ((stepTags W v).1).dim_source_category = W.dim_source_category := by
  unfold stepTags; split <;> rfl

theorem stepTags_dim_article (W : Warehouse) (v : Value) :
    ((stepTags W v).1).dim_article = W.dim_article := by
  unfold stepTags; split <;> rfl

theorem stepArticle_dim_date (W : Warehouse) (r : Row) :
    (stepArticle W r).dim_date = W.dim_date := by
  unfold stepArticle; split <;> rfl

theorem stepArticle_dim_category (W : Warehouse) (r : Row) :
    (stepArticle W r).dim_category = W.dim_category := by
  unfold stepArticle; split <;> rfl

theorem stepArticle_dim_source (W : Warehouse) (r : Row) :
    (stepArticle W r).dim_source_category = W.dim_source_category := by
  unfold stepArticle; split <;> rfl

theorem stepArticle_dim_tag (W : Warehouse) (r : Row) :
    (stepArticle W r).dim_tag = W.dim_tag := by
  unfold stepArticle; split <;> rfl

theorem stepTags_ok (W : Warehouse) (v : Value)
    (h : v = Value.null ∨ ∃ s, v = Value.str s) : (stepTags W v).2 = true := by
  rcases h with h | ⟨s, h⟩ <;> subst h <;> rfl

/- Shape of loadDimRow on a row whose date parses and whose tags cell is
null or a string (the loop then raises nothing). -/
theorem loadDimRow_some (W : Warehouse) (r : Row) (d : PDate)
    (hup : rowGet r "updated" ≠ Value.null)
    (hpd : parseDate (rowGet r "updated") = some d)
    (htags : rowGet r "tags" = Value.null ∨ ∃ s, rowGet r "tags" = Value.str s) :
    loadDimRow W r =
      (stepArticle ((stepTags (stepSource (stepCategory (stepDate W d) r) r) (rowGet r "tags")).1) r, true) := by
  unfold loadDimRow
  rw [if_neg hup, hpd]
  rcases htags with h | ⟨s, h⟩ <;> rw [h] <;> rfl

/-- C10: loadDimensions inserts a dim_article row for a given row only when
title, description and url are all non-null: if any of the three is null
the article insert is silently skipped (the dimension loader logs no
warning at all), while the date, category, source-category and tag inserts
of the row still take place. -/
theorem c10_article_needs_all_fields (W : Warehouse) (r : Row) (d : PDate)
    (hup : rowGet r "updated" ≠ Value.null)
    (hpd : parseDate (rowGet r "updated") = some d)
    (htags : rowGet r "tags" = Value.null ∨ ∃ s, rowGet r "tags" = Value.str s) :
    ((rowGet r "title" = Value.null ∨ rowGet r "description" = Value.null ∨
        rowGet r "url" = Value.null) →
      (loadDimRow W r).1.dim_article = W.dim_article) ∧
    ((loadDimRow W r).1.dim_date = insKey W.dim_date d) ∧
    ((loadDimRow W r).1.dim_category =
      if rowGet r "category" ≠ Value.null then
        insKey W.dim_category (rowGet r "category") else W.dim_category) ∧
    ((loadDimRow W r).1.dim_source_category =
      if rowGet r "source_category" ≠ Value.null then
        insKey W.dim_source_category (rowGet r "source_category")
      else W.dim_source_category) ∧
    ((rowGet r "tags" = Value.null → (loadDimRow W r).1.dim_tag = W.dim_tag) ∧
      (∀ s, rowGet r "tags" = Value.str s →
        (loadDimRow W r).1.dim_tag = (splitTags s).foldl insKey W.dim_tag)) ∧
    (∀ W2 rows lvl, lvl ∈ (load_to_dimension_tables W2 rows).2.1 →
      lvl ≠ LogLevel.warn) := by
  rw [loadDimRow_some W r d hup hpd htags]
  refine ⟨?_, ?_, ?_, ?_, ⟨?_, ?_⟩, ?_⟩
  · intro hnull
    have : ¬ (rowGet r "title" ≠ Value.null ∧ rowGet r "description" ≠ Value.null ∧
        rowGet r "url" ≠ Value.null) := by
      rcases hnull with h | h | h <;> simp [h]
    show (stepArticle _ r).dim_article = W.dim_article
    unfold stepArticle
    rw [if_neg this]
    rw [stepTags_dim_article, stepSource_dim_article, stepCategory_dim_article,
      stepDate_dim_article]
  · show (stepArticle _ r).dim_date = _
    rw [stepArticle_dim_date, stepTags_dim_date, stepSource_dim_date,
      stepCategory_dim_date, stepDate_dim_date]
  · show (stepArticle _ r).dim_category = _
    rw [stepArticle_dim_category, stepTags_dim_category, stepSource_dim_category,
      stepCategory_dim_category, stepDate_dim_category]
  · show (stepArticle _ r).dim_source_category = _
    rw [stepArticle_dim_source, stepTags_dim_source, stepSource_dim_source,
      stepCategory_dim_source, stepDate_dim_source]
  · intro hn
    show (stepArticle _ r).dim_tag = _
    rw [stepArticle_dim_tag, hn]
    show ((stepTags _ Value.null).1).dim_tag = _
    rw [show ∀ X : Warehouse, (stepTags X Value.null).1 = X from fun X => rfl]
    rw [stepSource_dim_tag, stepCategory_dim_tag, stepDate_dim_tag]
  · intro s hs
    show (stepArticle _ r).dim_tag = _
    rw [stepArticle_dim_tag, hs]
    show ((stepTags _ (Value.str s)).1).dim_tag = _
    rw [show ∀ X : Warehouse, ((stepTags X (Value.str s)).1).dim_tag =
      (splitTags s).foldl insKey X.dim_tag from fun X => rfl]
    rw [stepSource_dim_tag, stepCategory_dim_tag, stepDate_dim_tag]
  · intro W2 rows lvl hmem
    unfold load_to_dimension_tables at hmem
    cases hgo : loadDimsGo W2 rows with
    | mk Wg bg =>
      rw [hgo] at hmem
      cases bg <;> simp only at hmem <;> simp at hmem <;> subst hmem <;> decide

/- Facts about the per-tag fact insertion loop. -/

theorem insertFact_key_mem (l : List FactRow) (f : FactRow) :
    key5 f ∈ (insertFact l f).map key5 := by
  unfold insertFact
  split
  · assumption
  · rw [List.map_append]
    exact List.mem_append_right _ (by simp)

theorem insertFact_key_mono (l : List FactRow) (f : FactRow)
    (k : Nat × Nat × Nat × Nat × Nat)
    (h : k ∈ l.map key5) : k ∈ (insertFact l f).map key5 := by
  unfold insertFact
  split
  · exact h
  · rw [List.map_append]
    exact List.mem_append_left _ h

theorem factTagLoop_dim_tag (ts : List String) :
    ∀ W logs nid did cid sid r,
      ((factTagLoop W logs nid did cid sid r ts).1).dim_tag = W.dim_tag := by
  induction ts with
  | nil => intros; rfl
  | cons u ts ih =>
    intro W logs nid did cid sid r
    unfold factTagLoop
    cases h : lookupIdx W.dim_tag u with
    | none => exact ih W _ nid did cid sid r
    | some tid => exact ih _ logs nid did cid sid r

theorem factTagLoop_facts_mono (ts : List String) :
    ∀ W logs nid did cid sid r k, k ∈ W.fact_news.map key5 →
      k ∈ ((factTagLoop W logs nid did cid sid r ts).1).fact_news.map key5 := by
  induction ts with
  | nil => intro W logs nid did cid sid r k hk; exact hk
  | cons u ts ih =>
    intro W logs nid did cid sid r k hk
    unfold factTagLoop
    cases h : lookupIdx W.dim_tag u with
    | none => exact ih W _ nid did cid sid r k hk
    | some tid =>
      refine ih _ logs nid did cid sid r k ?_
      exact insertFact_key_mono _ _ _ hk

theorem factTagLoop_key_mem (ts : List String) :
    ∀ W logs nid did cid sid r t tid, t ∈ ts →
      lookupIdx W.dim_tag t = some tid →
      key5 (mkFact nid did cid sid tid r) ∈
        ((factTagLoop W logs nid did cid sid r ts).1).fact_news.map key5 := by
  induction ts with
  | nil => intro W logs nid did cid sid r t tid hmem; cases hmem
  | cons u ts ih =>
    intro W logs nid did cid sid r t tid hmem hlk
    rcases List.mem_cons.mp hmem with he | hrest
    · subst he
      unfold factTagLoop
      rw [hlk]
      refine factTagLoop_facts_mono ts _ logs nid did cid sid r _ ?_
      exact insertFact_key_mem _ _
    · unfold factTagLoop
      cases h : lookupIdx W.dim_tag u with
      | none => exact ih W _ nid did cid sid r t tid hrest hlk
      | some tid2 => exact ih _ logs nid did cid sid r t tid hrest hlk

theorem factTagLoop_logs (ts : List String) :
    ∀ W logs nid did cid sid r,
      (factTagLoop W logs nid did cid sid r ts).2 = logs ++
        ((ts.filter (fun t => decide (lookupIdx W.dim_tag t = none))).map
          (fun _ => LogLevel.warn)) := by
  induction ts with
  | nil => intro W logs nid did cid sid r; simp [factTagLoop]
  | cons u ts ih =>
    intro W logs nid did cid sid r
    unfold factTagLoop
    cases h : lookupIdx W.dim_tag u with
    | none =>
      rw [ih W (logs ++ [LogLevel.warn]) nid did cid sid r]
      rw [List.filter_cons]
      simp [h]
    | some tid =>
      rw [ih _ logs nid did cid sid r]
      rw [List.filter_cons]
      simp [h]

/- Scenario row of claim C5: category Tech, null source_category, day-first
date 15-03-2024, one tag. -/
def c5row : Row :=
  [("updated", Value.str "15-03-2024"), ("category", Value.str "Tech"),
   ("source_category", Value.null), ("title", Value.str "t"),
   ("description", Value.str "d"), ("url", Value.str "http://x/1"),
   ("tags", Value.str "ai"), ("live", Value.str "Yes")]

/- The warehouse after the dimension load of the scenario row. -/
def c5W : Warehouse := (load_to_dimension_tables emptyW [c5row]).1

/-- C5: in load_to_fact_table, for a row with a non-null parsed date, a miss
of any of the four lookups (category, source-category, date, article) warns
and skips the whole row, inserting nothing; when all four hit, each tag of
the row is processed independently: the logged warnings are exactly one per
missed tag, and every tag whose lookup hits contributes its fact row. In
the scenario (category Tech, null source_category, updated 15-03-2024) the
dimension load fills dim_date and dim_category, yet the fact load inserts
no fact row and logs a warning (source-category miss). -/
theorem c5_fact_row_skips (W : Warehouse) (r : Row) (d : PDate)
    (hup : rowGet r "updated" ≠ Value.null)
    (hpd : parseDate (rowGet r "updated") = some d) :
    ((sqlFind W.dim_category (rowGet r "category") = none ∨
      sqlFind W.dim_source_category (rowGet r "source_category") = none ∨
      lookupIdx W.dim_date d = none ∨
      sqlFind (W.dim_article.map (fun a => a.2.2)) (rowGet r "url") = none) →
      factRowWork W r = (W, [LogLevel.warn], true)) ∧
    (∀ cid sid did nid s,
      sqlFind W.dim_category (rowGet r "category") = some cid →
      sqlFind W.dim_source_category (rowGet r "source_category") = some sid →
      lookupIdx W.dim_date d = some did →
      sqlFind (W.dim_article.map (fun a => a.2.2)) (rowGet r "url") = some nid →
      rowGet r "tags" = Value.str s →
      (factRowWork W r).2.2 = true ∧
      ((factRowWork W r).2.1 =
        ((splitTags s).filter (fun t => decide (lookupIdx W.dim_tag t = none))).map
          (fun _ => LogLevel.warn)) ∧
      (∀ t tid, t ∈ splitTags s → lookupIdx W.dim_tag t = some tid →
        key5 (mkFact nid did cid sid tid r) ∈
          ((factRowWork W r).1.fact_news).map key5)) ∧
    (c5W.dim_date = [⟨15, 3, 2024⟩] ∧ c5W.dim_category = [Value.str "Tech"] ∧
      c5W.fact_news = [] ∧
      load_to_fact_table c5W [c5row] = (c5W, [LogLevel.warn, LogLevel.info], true)) := by
  refine ⟨?_, ?_, ?_⟩
  · intro hmiss
    unfold factRowWork
    rw [if_neg hup, hpd]
    dsimp only
    cases hcat : sqlFind W.dim_category (rowGet r "category") with
    | none => rfl
    | some cid =>
      cases hsrc : sqlFind W.dim_source_category (rowGet r "source_category") with
      | none => rfl
      | some sid =>
        cases hdt : lookupIdx W.dim_date d with
        | none => rfl
        | some did =>
          cases hart : sqlFind (W.dim_article.map (fun a => a.2.2)) (rowGet r "url") with
          | none => rfl
          | some nid =>
            exfalso
            rcases hmiss with h | h | h | h
            · rw [hcat] at h; cases h
            · rw [hsrc] at h; cases h
            · rw [hdt] at h; cases h
            · rw [hart] at h; cases h
  · intro cid sid did nid s hcat hsrc hdt hart htg
    have hfr : factRowWork W r =
        ((factTagLoop W [] nid did cid sid r (splitTags s)).1,
          (factTagLoop W [] nid did cid sid r (splitTags s)).2, true) := by
      unfold factRowWork
      rw [if_neg hup, hpd]
      dsimp only
      rw [hcat, hsrc, hdt, hart, htg]
    refine ⟨by rw [hfr], ?_, ?_⟩
    · rw [hfr]
      simpa using factTagLoop_logs (splitTags s) W [] nid did cid sid r
    · intro t tid hmem hlk
      rw [hfr]
      exact factTagLoop_key_mem (splitTags s) W [] nid did cid sid r t tid hmem hlk
  · exact ⟨by decide, by decide, by decide, by decide⟩

/-- C5 witness: on the scenario row against the scenario warehouse, the
source-category lookup misses, so the whole row is skipped with one warning
and an unchanged warehouse. -/
theorem c5_fact_row_skips_witness :
    factRowWork c5W c5row = (c5W, [LogLevel.warn], true) :=
  (c5_fact_row_skips c5W c5row ⟨15, 3, 2024⟩ (by decide) (by decide)).1
    (Or.inr (Or.inl (by decide)))

/- Concrete row with a null title: article skipped, everything else loaded. -/
def c10row : Row :=
  [("updated", Value.str "15-03-2024"), ("category", Value.str "Tech"),
   ("title", Value.null), ("description", Value.str "desc"),
   ("url", Value.str "http://x/1"), ("tags", Value.str "ai, policy")]

/-- C10 witness: on the concrete row with a null title, the article table
is untouched while dim_date still receives the parsed date. -/
theorem c10_article_needs_all_fields_witness :
    (loadDimRow emptyW c10row).1.dim_article = emptyW.dim_article ∧
      (loadDimRow emptyW c10row).1.dim_date = insKey emptyW.dim_date ⟨15, 3, 2024⟩ :=
  ⟨(c10_article_needs_all_fields emptyW c10row ⟨15, 3, 2024⟩ (by decide) (by decide)
      (Or.inr ⟨"ai, policy", by decide⟩)).1 (by decide),
    (c10_article_needs_all_fields emptyW c10row ⟨15, 3, 2024⟩ (by decide) (by decide)
      (Or.inr ⟨"ai, policy", by decide⟩)).2.1⟩

/- ------------------------------------------------------------------ -/
/- Idempotence of the loaders (claim C2)                               -/
/- ------------------------------------------------------------------ -/

/- Componentwise containment of warehouses; insert-if-absent only grows. -/
def wsub (W V : Warehouse) : Prop :=
  W.dim_date ⊆ V.dim_date ∧ W.dim_category ⊆ V.dim_category ∧
  W.dim_source_category ⊆ V.dim_source_category ∧ W.dim_tag ⊆ V.dim_tag ∧
  W.dim_article ⊆ V.dim_article ∧ W.fact_news ⊆ V.fact_news

theorem wsub_refl (W : Warehouse) : wsub W W :=
  ⟨List.Subset.refl _, List.Subset.refl _, List.Subset.refl _,
    List.Subset.refl _, List.Subset.refl _, List.Subset.refl _⟩

theorem wsub_trans {A B C : Warehouse} (h1 : wsub A B) (h2 : wsub B C) :
    wsub A C :=
  ⟨h1.1.trans h2.1, h1.2.1.trans h2.2.1, h1.2.2.1.trans h2.2.2.1,
    h1.2.2.2.1.trans h2.2.2.2.1, h1.2.2.2.2.1.trans h2.2.2.2.2.1,
    h1.2.2.2.2.2.trans h2.2.2.2.2.2⟩

theorem insKey_self_mem {α : Type} [DecidableEq α] (l : List α) (k : α) :
    k ∈ insKey l k := by
  unfold insKey; split
  · assumption
  · simp

theorem insKey_sub {α : Type} [DecidableEq α] (l : List α) (k : α) :
    l ⊆ insKey l k := by
  unfold insKey; split
  · exact List.Subset.refl _
  · exact List.subset_append_left _ _

theorem insKey_of_mem {α : Type} [DecidableEq α] (l : List α) (k : α)
    (h : k ∈ l) : insKey l k = l := by
  unfold insKey; rw [if_pos h]

theorem insKey_stable {α : Type} [DecidableEq α] (l m : List α) (k : α)
    (h : insKey l k ⊆ m) : insKey m k = m :=
  insKey_of_mem m k (h (insKey_self_mem l k))

theorem foldl_insKey_sub {α : Type} [DecidableEq α] (ts : List α) :
    ∀ l : List α, l ⊆ ts.foldl insKey l := by
  induction ts with
  | nil => intro l; exact List.Subset.refl _
  | cons t ts ih =>
    intro l
    exact (insKey_sub l t).trans (ih (insKey l t))

theorem foldl_insKey_stable {α : Type} [DecidableEq α] (ts : List α) :
    ∀ l m : List α, ts.foldl insKey l ⊆ m → ts.foldl insKey m = m := by
  induction ts with
  | nil => intro l m h; rfl
  | cons t ts ih =>
    intro l m h
    have h0 : insKey l t ⊆ m := (foldl_insKey_sub ts (insKey l t)).trans h
    have hm : insKey m t = m := insKey_stable l m t h0
    show List.foldl insKey (insKey m t) ts = m
    rw [hm]
    exact ih (insKey l t) m h

theorem insArticle_sub (l : List (Value × Value × Value)) (t d u : Value) :
    l ⊆ insArticle l t d u := by
  unfold insArticle; split
  · exact List.Subset.refl _
  · exact List.subset_append_left _ _

theorem insArticle_stable (l m : List (Value × Value × Value)) (t d u : Value)
    (h : insArticle l t d u ⊆ m) : insArticle m t d u = m := by
  have hu : u ∈ m.map (fun a => a.2.2) := by
    unfold insArticle at h
    by_cases hl : u ∈ l.map (fun a => a.2.2)
    · rw [if_pos hl] at h
      rcases List.mem_map.mp hl with ⟨a, ha, hau⟩
      exact List.mem_map.mpr ⟨a, h ha, hau⟩
    · rw [if_neg hl] at h
      have hm : (t, d, u) ∈ m := h (List.mem_append_right _ (by simp))
      exact List.mem_map.mpr ⟨(t, d, u), hm, rfl⟩
  unfold insArticle; rw [if_pos hu]

theorem stepDate_sub (W : Warehouse) (d : PDate) : wsub W (stepDate W d) :=
  ⟨insKey_sub _ _, List.Subset.refl _, List.Subset.refl _, List.Subset.refl _,
    List.Subset.refl _, List.Subset.refl _⟩

theorem stepDate_stable (W V : Warehouse) (d : PDate)
    (h : wsub (stepDate W d) V) : stepDate V d = V := by
  have hk : insKey V.dim_date d = V.dim_date := insKey_stable _ _ _ h.1
  unfold stepDate
  rw [hk]

theorem stepCategory_sub (W : Warehouse) (r : Row) : wsub W (stepCategory W r) := by
  unfold stepCategory; split
  · exact ⟨List.Subset.refl _, insKey_sub _ _, List.Subset.refl _,
      List.Subset.refl _, List.Subset.refl _, List.Subset.refl _⟩
  · exact wsub_refl W

theorem stepCategory_stable (W V : Warehouse) (r : Row)
    (h : wsub (stepCategory W r) V) : stepCategory V r = V := by
  unfold stepCategory at h ⊢
  split
  · rename_i hc
    rw [if_pos hc] at h
    have hk : insKey V.dim_category (rowGet r "category") = V.dim_category :=
      insKey_stable _ _ _ h.2.1
    rw [hk]
  · rfl

theorem stepSource_sub (W : Warehouse) (r : Row) : wsub W (stepSource W r) := by
  unfold stepSource; split
  · exact ⟨List.Subset.refl _, List.Subset.refl _, insKey_sub _ _,
      List.Subset.refl _, List.Subset.refl _, List.Subset.refl _⟩
  · exact wsub_refl W

theorem stepSource_stable (W V : Warehouse) (r : Row)
    (h : wsub (stepSource W r) V) : stepSource V r = V := by
  unfold stepSource at h ⊢
  split
  · rename_i hc
    rw [if_pos hc] at h
    have hk : insKey V.dim_source_category (rowGet r "source_category") =
        V.dim_source_category := insKey_stable _ _ _ h.2.2.1
    rw [hk]
  · rfl

theorem stepTags_sub (W : Warehouse) (v : Value) : wsub W (stepTags W v).1 := by
  unfold stepTags
  split
  · exact wsub_refl W
  · exact ⟨List.Subset.refl _, List.Subset.refl _, List.Subset.refl _,
      foldl_insKey_sub _ _, List.Subset.refl _, List.Subset.refl _⟩
  · exact wsub_refl W

theorem stepTags_stable (W V : Warehouse) (v : Value)
    (h : wsub (stepTags W v).1 V) : stepTags V v = (V, (stepTags W v).2) := by
  cases v with
  | null => rfl
  | str s =>
    have hk := foldl_insKey_stable (splitTags s) W.dim_tag V.dim_tag h.2.2.2.1
    show ({ V with dim_tag := (splitTags s).foldl insKey V.dim_tag }, true) = (V, true)
    rw [hk]
  | num q => rfl
  | date t => rfl
  | bool b => rfl

theorem stepArticle_sub (W : Warehouse) (r : Row) : wsub W (stepArticle W r) := by
  unfold stepArticle; split
  · exact ⟨List.Subset.refl _, List.Subset.refl _, List.Subset.refl _,
      List.Subset.refl _, insArticle_sub _ _ _ _, List.Subset.refl _⟩
  · exact wsub_refl W

theorem stepArticle_stable (W V : Warehouse) (r : Row)
    (h : wsub (stepArticle W r) V) : stepArticle V r = V := by
  unfold stepArticle at h ⊢
  split
  · rename_i hc
    rw [if_pos hc] at h
    have hk := insArticle_stable _ _ (rowGet r "title") (rowGet r "description")
      (rowGet r "url") h.2.2.2.2.1
    rw [hk]
  · rfl

theorem loadDimRow_sub (W : Warehouse) (r : Row) : wsub W (loadDimRow W r).1 := by
  unfold loadDimRow
  split
  · exact wsub_refl W
  · split
    · exact wsub_refl W
    · rename_i d hpd
      have hC : wsub W (stepSource (stepCategory (stepDate W d) r) r) :=
        wsub_trans (wsub_trans (stepDate_sub W d) (stepCategory_sub _ r))
          (stepSource_sub _ r)
      split
      · rename_i W4 heq
        have hT := stepTags_sub (stepSource (stepCategory (stepDate W d) r) r)
          (rowGet r "tags")
        rw [heq] at hT
        exact wsub_trans hC hT
      · rename_i W4 heq
        have hT := stepTags_sub (stepSource (stepCategory (stepDate W d) r) r)
          (rowGet r "tags")
        rw [heq] at hT
        exact wsub_trans (wsub_trans hC hT) (stepArticle_sub W4 r)

theorem loadDimRow_stable (W V : Warehouse) (r : Row) (W2 : Warehouse) (b : Bool)
    (h : loadDimRow W r = (W2, b)) (hs : wsub W2 V) : loadDimRow V r = (V, b) := by
  unfold loadDimRow at h ⊢
  by_cases hup : rowGet r "updated" = Value.null
  · rw [if_pos hup] at h ⊢
    injection h with h1 h2
    rw [← h2]
  · rw [if_neg hup] at h ⊢
    cases hpd : parseDate (rowGet r "updated") with
    | none =>
      rw [hpd] at h
      dsimp only at h ⊢
      injection h with h1 h2
      rw [← h2]
    | some d =>
      rw [hpd] at h
      dsimp only at h ⊢
      cases hv : rowGet r "tags" with
      | null =>
        rw [hv] at h
        injection h with hW2 hb
        have hs2 : wsub (stepArticle (stepSource (stepCategory (stepDate W d) r) r) r) V := by
          rw [hW2]; exact hs
        have h1 : stepDate V d = V := stepDate_stable W V d
          (wsub_trans (wsub_trans (wsub_trans (stepCategory_sub _ r)
            (stepSource_sub _ r)) (stepArticle_sub _ r)) hs2)
        have h2 : stepCategory V r = V := stepCategory_stable (stepDate W d) V r
          (wsub_trans (wsub_trans (stepSource_sub _ r) (stepArticle_sub _ r)) hs2)
        have h3 : stepSource V r = V := stepSource_stable
          (stepCategory (stepDate W d) r) V r
          (wsub_trans (stepArticle_sub _ r) hs2)
        have h4 : stepArticle V r = V := stepArticle_stable
          (stepSource (stepCategory (stepDate W d) r) r) V r hs2
        rw [h1, h2, h3]
        show (stepArticle V r, true) = (V, b)
        rw [h4, ← hb]
      | str s =>
        rw [hv] at h
        injection h with hW2 hb
        have hTsub : wsub ((stepTags (stepSource (stepCategory (stepDate W d) r) r) (Value.str s)).1) (stepArticle ({ stepSource (stepCategory (stepDate W d) r) r with dim_tag := (splitTags s).foldl insKey (stepSource (stepCategory (stepDate W d) r) r).dim_tag }) r) := by
          exact stepArticle_sub _ r
        have hs2 : wsub (stepArticle ({ stepSource (stepCategory (stepDate W d) r) r with dim_tag := (splitTags s).foldl insKey (stepSource (stepCategory (stepDate W d) r) r).dim_tag }) r) V := by
          rw [hW2]; exact hs
        have hs3 : wsub ((stepTags (stepSource (stepCategory (stepDate W d) r) r) (Value.str s)).1) V := wsub_trans hTsub hs2
        have h1 : stepDate V d = V := stepDate_stable W V d
          (wsub_trans (wsub_trans (wsub_trans (wsub_trans (stepCategory_sub _ r)
            (stepSource_sub _ r)) (stepTags_sub _ (Value.str s))) hTsub) hs2)
        have h2 : stepCategory V r = V := stepCategory_stable (stepDate W d) V r
          (wsub_trans (wsub_trans (wsub_trans (stepSource_sub _ r)
            (stepTags_sub _ (Value.str s))) hTsub) hs2)
        have h3 : stepSource V r = V := stepSource_stable
          (stepCategory (stepDate W d) r) V r
          (wsub_trans (wsub_trans (stepTags_sub _ (Value.str s)) hTsub) hs2)
        have hts : stepTags V (Value.str s) = (V, true) :=
          stepTags_stable (stepSource (stepCategory (stepDate W d) r) r) V
            (Value.str s) hs3
        have h4 : stepArticle V r = V := by
          refine stepArticle_stable ({ stepSource (stepCategory (stepDate W d) r) r with dim_tag := (splitTags s).foldl insKey (stepSource (stepCategory (stepDate W d) r) r).dim_tag }) V r hs2
        rw [h1, h2, h3]
        show (stepArticle ((stepTags V (Value.str s)).1) r, true) = (V, b)
        have hts2 : (stepTags V (Value.str s)).1 = V := congrArg Prod.fst hts
        rw [hts2, h4, ← hb]
      | num q =>
        rw [hv] at h
        injection h with hW2 hb
        have hs2 : wsub (stepSource (stepCategory (stepDate W d) r) r) V := by
          rw [hW2]; exact hs
        have h1 : stepDate V d = V := stepDate_stable W V d
          (wsub_trans (wsub_trans (stepCategory_sub _ r) (stepSource_sub _ r)) hs2)
        have h2 : stepCategory V r = V := stepCategory_stable (stepDate W d) V r
          (wsub_trans (stepSource_sub _ r) hs2)
        have h3 : stepSource V r = V := stepSource_stable
          (stepCategory (stepDate W d) r) V r hs2
        rw [h1, h2, h3, ← hb]
        rfl
      | date t =>
        rw [hv] at h
        injection h with hW2 hb
        have hs2 : wsub (stepSource (stepCategory (stepDate W d) r) r) V := by
          rw [hW2]; exact hs
        have h1 : stepDate V d = V := stepDate_stable W V d
          (wsub_trans (wsub_trans (stepCategory_sub _ r) (stepSource_sub _ r)) hs2)
        have h2 : stepCategory V r = V := stepCategory_stable (stepDate W d) V r
          (wsub_trans (stepSource_sub _ r) hs2)
        have h3 : stepSource V r = V := stepSource_stable
          (stepCategory (stepDate W d) r) V r hs2
        rw [h1, h2, h3, ← hb]
        rfl
      | bool bb =>
        rw [hv] at h
        injection h with hW2 hb
        have hs2 : wsub (stepSource (stepCategory (stepDate W d) r) r) V := by
          rw [hW2]; exact hs
        have h1 : stepDate V d = V := stepDate_stable W V d
          (wsub_trans (wsub_trans (stepCategory_sub _ r) (stepSource_sub _ r)) hs2)
        have h2 : stepCategory V r = V := stepCategory_stable (stepDate W d) V r
          (wsub_trans (stepSource_sub _ r) hs2)
        have h3 : stepSource V r = V := stepSource_stable
          (stepCategory (stepDate W d) r) V r hs2
        rw [h1, h2, h3, ← hb]
        rfl

theorem loadDimsGo_sub (rows : List Row) :
    ∀ W, wsub W (loadDimsGo W rows).1 := by
  induction rows with
  | nil => intro W; exact wsub_refl W
  | cons r rest ih =>
    intro W
    unfold loadDimsGo
    cases hw : loadDimRow W r with
    | mk W2 b =>
      have hsubW : wsub W W2 := by
        have := loadDimRow_sub W r
        rw [hw] at this
        exact this
      cases b
      · exact hsubW
      · exact wsub_trans hsubW (ih W2)

theorem loadDimsGo_stable (rows : List Row) :
    ∀ W W1 V (b : Bool), loadDimsGo W rows = (W1, b) → wsub W1 V →
      loadDimsGo V rows = (V, b) := by
  induction rows with
  | nil =>
    intro W W1 V b h hs
    injection h with h1 h2
    rw [← h2]
    rfl
  | cons r rest ih =>
    intro W W1 V b h hs
    unfold loadDimsGo at h ⊢
    cases hw : loadDimRow W r with
    | mk W2 br =>
      rw [hw] at h
      cases br
      · have hfail : ((W2, false) : Warehouse × Bool) = (W1, b) := h
        injection hfail with hA hB
        have hrv : loadDimRow V r = (V, false) :=
          loadDimRow_stable W V r W2 false hw (by rw [hA]; exact hs)
        rw [hrv, ← hB]
      · have hrec : loadDimsGo W2 rest = (W1, b) := h
        have hsub2 : wsub W2 W1 := by
          have := loadDimsGo_sub rest W2
          rw [hrec] at this
          exact this
        have hrv : loadDimRow V r = (V, true) :=
          loadDimRow_stable W V r W2 true hw (wsub_trans hsub2 hs)
        rw [hrv]
        exact ih W2 W1 V b hrec hs

/- Re-running the dimension load on its own output state changes nothing:
every insert-if-absent finds its natural key already present. -/
theorem load_to_dimension_tables_idem (W : Warehouse) (rows : List Row) :
    load_to_dimension_tables ((load_to_dimension_tables W rows).1) rows =
      load_to_dimension_tables W rows := by
  cases h : loadDimsGo W rows with
  | mk W1 b =>
    have hfst : (load_to_dimension_tables W rows).1 = W1 := by
      rw [load_to_dimension_tables_fst W rows, h]
    have hi : loadDimsGo W1 rows = (W1, b) :=
      loadDimsGo_stable rows W W1 W1 b h (wsub_refl W1)
    rw [hfst]
    unfold load_to_dimension_tables
    rw [h, hi]

/- Equality of all five dimension tables (the fact load never alters them). -/
def dimsEq (A B : Warehouse) : Prop :=
  A.dim_date = B.dim_date ∧ A.dim_category = B.dim_category ∧
  A.dim_source_category = B.dim_source_category ∧ A.dim_tag = B.dim_tag ∧
  A.dim_article = B.dim_article

theorem dimsEq_refl (W : Warehouse) : dimsEq W W := ⟨rfl, rfl, rfl, rfl, rfl⟩

theorem dimsEq_trans {A B C : Warehouse} (h1 : dimsEq A B) (h2 : dimsEq B C) :
    dimsEq A C :=
  ⟨h1.1.trans h2.1, h1.2.1.trans h2.2.1, h1.2.2.1.trans h2.2.2.1,
    h1.2.2.2.1.trans h2.2.2.2.1, h1.2.2.2.2.trans h2.2.2.2.2⟩

theorem insertFact_sub (l : List FactRow) (f : FactRow) : l ⊆ insertFact l f := by
  unfold insertFact; split
  · exact List.Subset.refl _
  · exact List.subset_append_left _ _

theorem insertFact_of_key_mem (l : List FactRow) (f : FactRow)
    (h : key5 f ∈ l.map key5) : insertFact l f = l := by
  unfold insertFact; rw [if_pos h]

theorem factTagLoop_dims (ts : List String) :
    ∀ W logs nid did cid sid r,
      dimsEq ((factTagLoop W logs nid did cid sid r ts).1) W := by
  induction ts with
  | nil => intros; exact dimsEq_refl _
  | cons u ts ih =>
    intro W logs nid did cid sid r
    unfold factTagLoop
    cases hlk : lookupIdx W.dim_tag u with
    | none => exact ih W _ nid did cid sid r
    | some tid => exact ih _ logs nid did cid sid r

theorem factTagLoop_facts_sub (ts : List String) :
    ∀ W logs nid did cid sid r,
      W.fact_news ⊆ ((factTagLoop W logs nid did cid sid r ts).1).fact_news := by
  induction ts with
  | nil => intros; exact List.Subset.refl _
  | cons u ts ih =>
    intro W logs nid did cid sid r
    unfold factTagLoop
    cases hlk : lookupIdx W.dim_tag u with
    | none => exact ih W _ nid did cid sid r
    | some tid =>
      exact (insertFact_sub _ _).trans
        (ih { W with fact_news := insertFact W.fact_news (mkFact nid did cid sid tid r) } logs nid did cid sid r)

theorem factTagLoop_state_stable (ts : List String) :
    ∀ W V logsW logsV nid did cid sid r,
      V.dim_tag = W.dim_tag →
      ((factTagLoop W logsW nid did cid sid r ts).1).fact_news.map key5 ⊆
        V.fact_news.map key5 →
      (factTagLoop V logsV nid did cid sid r ts).1 = V := by
  induction ts with
  | nil => intros; rfl
  | cons u ts ih =>
    intro W V logsW logsV nid did cid sid r hdt hsub
    unfold factTagLoop
    cases hlk : lookupIdx W.dim_tag u with
    | none =>
      rw [show lookupIdx V.dim_tag u = none from by rw [hdt]; exact hlk]
      refine ih W V (logsW ++ [LogLevel.warn]) (logsV ++ [LogLevel.warn])
        nid did cid sid r hdt ?_
      have hW : factTagLoop W logsW nid did cid sid r (u :: ts) =
          factTagLoop W (logsW ++ [LogLevel.warn]) nid did cid sid r ts := by
        conv_lhs => unfold factTagLoop
        rw [hlk]
      rw [← hW]
      exact hsub
    | some tid =>
      rw [show lookupIdx V.dim_tag u = some tid from by rw [hdt]; exact hlk]
      dsimp only
      have hW : factTagLoop W logsW nid did cid sid r (u :: ts) =
          factTagLoop { W with fact_news := insertFact W.fact_news (mkFact nid did cid sid tid r) } logsW nid did cid sid r ts := by
        conv_lhs => unfold factTagLoop
        rw [hlk]
      have hkey : key5 (mkFact nid did cid sid tid r) ∈ V.fact_news.map key5 := by
        apply hsub
        rw [hW]
        have h1 : key5 (mkFact nid did cid sid tid r) ∈
            (insertFact W.fact_news (mkFact nid did cid sid tid r)).map key5 :=
          insertFact_key_mem _ _
        have h2 := factTagLoop_facts_sub ts
          { W with fact_news := insertFact W.fact_news (mkFact nid did cid sid tid r) }
          logsW nid did cid sid r
        exact List.map_subset key5 h2 h1
      have hins : insertFact V.fact_news (mkFact nid did cid sid tid r) =
          V.fact_news := insertFact_of_key_mem _ _ hkey
      rw [show ({ V with fact_news := insertFact V.fact_news (mkFact nid did cid sid tid r) } : Warehouse) = V from by rw [hins]]
      refine ih { W with fact_news := insertFact W.fact_news (mkFact nid did cid sid tid r) }
        V logsW logsV nid did cid sid r hdt ?_
      rw [← hW]
      exact hsub

theorem factRowWork_dims (W : Warehouse) (r : Row) :
    dimsEq ((factRowWork W r).1) W := by
  unfold factRowWork
  split
  · exact dimsEq_refl W
  · split
    · exact dimsEq_refl W
    · split
      · exact dimsEq_refl W
      · split
        · exact dimsEq_refl W
        · split
          · exact dimsEq_refl W
          · split
            · exact dimsEq_refl W
            · split
              · exact dimsEq_refl W
              · exact factTagLoop_dims _ _ _ _ _ _ _ _
              · exact dimsEq_refl W

theorem factRowWork_facts_sub (W : Warehouse) (r : Row) :
    W.fact_news ⊆ ((factRowWork W r).1).fact_news := by
  unfold factRowWork
  split
  · exact List.Subset.refl _
  · split
    · exact List.Subset.refl _
    · split
      · exact List.Subset.refl _
      · split
        · exact List.Subset.refl _
        · split
          · exact List.Subset.refl _
          · split
            · exact List.Subset.refl _
            · split
              · exact List.Subset.refl _
              · exact factTagLoop_facts_sub _ _ _ _ _ _ _ _
              · exact List.Subset.refl _

theorem factRowWork_stable (W V : Warehouse) (r : Row) (W2 : Warehouse)
    (ls : List LogLevel) (b : Bool)
    (h : factRowWork W r = (W2, ls, b)) (hde : dimsEq V W)
    (hsub : W2.fact_news.map key5 ⊆ V.fact_news.map key5) :
    factRowWork V r = (V, ls, b) := by
  obtain ⟨hd1, hd2, hd3, hd4, hd5⟩ := hde
  unfold factRowWork at h ⊢
  by_cases hup : rowGet r "updated" = Value.null
  · rw [if_pos hup] at h ⊢
    injection h with h1 hrest
    injection hrest with h2 h3
    rw [← h2, ← h3]
  · rw [if_neg hup] at h ⊢
    cases hpd : parseDate (rowGet r "updated") with
    | none =>
      rw [hpd] at h
      dsimp only at h ⊢
      injection h with h1 hrest
      injection hrest with h2 h3
      rw [← h2, ← h3]
    | some d =>
      rw [hpd] at h
      dsimp only at h ⊢
      rw [hd2]
      cases hcat : sqlFind W.dim_category (rowGet r "category") with
      | none =>
        rw [hcat] at h
        injection h with h1 hrest
        injection hrest with h2 h3
        rw [← h2, ← h3]
      | some cid =>
        rw [hcat] at h
        rw [hd3]
        cases hsrc : sqlFind W.dim_source_category (rowGet r "source_category") with
        | none =>
          rw [hsrc] at h
          injection h with h1 hrest
          injection hrest with h2 h3
          rw [← h2, ← h3]
        | some sid =>
          rw [hsrc] at h
          rw [hd1]
          cases hdt : lookupIdx W.dim_date d with
          | none =>
            rw [hdt] at h
            injection h with h1 hrest
            injection hrest with h2 h3
            rw [← h2, ← h3]
          | some did =>
            rw [hdt] at h
            rw [hd5]
            cases hart : sqlFind (W.dim_article.map (fun a => a.2.2)) (rowGet r "url") with
            | none =>
              rw [hart] at h
              injection h with h1 hrest
              injection hrest with h2 h3
              rw [← h2, ← h3]
            | some nid =>
              rw [hart] at h
              cases hv : rowGet r "tags" with
              | null =>
                rw [hv] at h
                injection h with h1 hrest
                injection hrest with h2 h3
                rw [← h2, ← h3]
              | str s =>
                rw [hv] at h
                injection h with h1 hrest
                injection hrest with h2 h3
                have hsub2 : ((factTagLoop W [] nid did cid sid r (splitTags s)).1).fact_news.map key5 ⊆ V.fact_news.map key5 := by
                  rw [h1]; exact hsub
                have hstate : (factTagLoop V [] nid did cid sid r (splitTags s)).1 = V :=
                  factTagLoop_state_stable (splitTags s) W V [] [] nid did cid sid r hd4 hsub2
                have hlogs : (factTagLoop V [] nid did cid sid r (splitTags s)).2 =
                    (factTagLoop W [] nid did cid sid r (splitTags s)).2 := by
                  rw [factTagLoop_logs, factTagLoop_logs, hd4]
                show ((factTagLoop V [] nid did cid sid r (splitTags s)).1,
                  (factTagLoop V [] nid did cid sid r (splitTags s)).2, true) = (V, ls, b)
                rw [hstate, hlogs, h2, h3]
              | num q =>
                rw [hv] at h
                injection h with h1 hrest
                injection hrest with h2 h3
                rw [← h2, ← h3]
              | date t =>
                rw [hv] at h
                injection h with h1 hrest
                injection hrest with h2 h3
                rw [← h2, ← h3]
              | bool bb =>
                rw [hv] at h
                injection h with h1 hrest
                injection hrest with h2 h3
                rw [← h2, ← h3]

theorem dimsEq_symm {A B : Warehouse} (h : dimsEq A B) : dimsEq B A :=
  ⟨h.1.symm, h.2.1.symm, h.2.2.1.symm, h.2.2.2.1.symm, h.2.2.2.2.symm⟩

theorem loadFactsGo_logs_append (rows : List Row) :
    ∀ W la, loadFactsGo W la rows =
      ((loadFactsGo W [] rows).1, la ++ (loadFactsGo W [] rows).2.1,
        (loadFactsGo W [] rows).2.2) := by
  induction rows with
  | nil => intro W la; simp [loadFactsGo]
  | cons r rest ih =>
    intro W la
    unfold loadFactsGo
    cases hfr : factRowWork W r with
    | mk W2 p =>
      cases p with
      | mk lsr br =>
        cases br
        · dsimp only
          simp
        · dsimp only
          rw [List.nil_append, ih W2 (la ++ lsr), ih W2 lsr]
          simp [List.append_assoc]

theorem loadFactsGo_facts_sub (rows : List Row) :
    ∀ W la, W.fact_news ⊆ ((loadFactsGo W la rows).1).fact_news := by
  induction rows with
  | nil => intro W la; exact List.Subset.refl _
  | cons r rest ih =>
    intro W la
    unfold loadFactsGo
    cases hfr : factRowWork W r with
    | mk W2 p =>
      cases p with
      | mk lsr br =>
        have hsubW : W.fact_news ⊆ W2.fact_news := by
          have := factRowWork_facts_sub W r
          rw [hfr] at this
          exact this
        cases br
        · exact hsubW
        · exact hsubW.trans (ih W2 (la ++ lsr))

theorem loadFactsGo_dims (rows : List Row) :
    ∀ W la, dimsEq ((loadFactsGo W la rows).1) W := by
  induction rows with
  | nil => intro W la; exact dimsEq_refl W
  | cons r rest ih =>
    intro W la
    unfold loadFactsGo
    cases hfr : factRowWork W r with
    | mk W2 p =>
      cases p with
      | mk lsr br =>
        have hdW : dimsEq W2 W := by
          have := factRowWork_dims W r
          rw [hfr] at this
          exact this
        cases br
        · exact hdW
        · exact dimsEq_trans (ih W2 (la ++ lsr)) hdW

theorem loadFactsGo_stable (rows : List Row) :
    ∀ W V W1 ls (b : Bool), loadFactsGo W [] rows = (W1, ls, b) →
      dimsEq V W → W1.fact_news.map key5 ⊆ V.fact_news.map key5 →
      loadFactsGo V [] rows = (V, ls, b) := by
  induction rows with
  | nil =>
    intro W V W1 ls b h hde hsub
    injection h with hA hrest
    injection hrest with hB hC
    rw [← hB, ← hC]
    rfl
  | cons r rest ih =>
    intro W V W1 ls b h hde hsub
    unfold loadFactsGo at h ⊢
    cases hfr : factRowWork W r with
    | mk W2 p =>
      cases p with
      | mk lsr br =>
        rw [hfr] at h
        cases br
        · have hh : ((W2, [] ++ lsr, false) : Warehouse × List LogLevel × Bool) =
              (W1, ls, b) := h
          injection hh with hA hrest
          injection hrest with hB hC
          have hfrV : factRowWork V r = (V, lsr, false) :=
            factRowWork_stable W V r W2 lsr false hfr hde (by rw [hA]; exact hsub)
          rw [hfrV]
          dsimp only
          rw [← hB, ← hC]
        · have hh : loadFactsGo W2 ([] ++ lsr) rest = (W1, ls, b) := h
          rw [List.nil_append] at hh
          rw [loadFactsGo_logs_append rest W2 lsr] at hh
          injection hh with hA hrest
          injection hrest with hB hC
          have hsub2 : W2.fact_news.map key5 ⊆ V.fact_news.map key5 := by
            have hm := loadFactsGo_facts_sub rest W2 []
            have hm2 := List.map_subset key5 hm
            rw [hA] at hm2
            exact hm2.trans hsub
          have hdeV2 : dimsEq V W2 := by
            have hw2 : dimsEq W2 W := by
              have := factRowWork_dims W r
              rw [hfr] at this
              exact this
            exact dimsEq_trans hde (dimsEq_symm hw2)
          have hfrV : factRowWork V r = (V, lsr, true) :=
            factRowWork_stable W V r W2 lsr true hfr hde hsub2
          rw [hfrV]
          dsimp only
          rw [List.nil_append]
          rw [loadFactsGo_logs_append rest V lsr]
          have hih : loadFactsGo V [] rest = (V, (loadFactsGo W2 [] rest).2.1,
              (loadFactsGo W2 [] rest).2.2) := by
            refine ih W2 V (loadFactsGo W2 [] rest).1 (loadFactsGo W2 [] rest).2.1
              (loadFactsGo W2 [] rest).2.2 rfl hdeV2 ?_
            rw [hA]
            exact hsub
          rw [hih]
          dsimp only
          rw [hB, hC]

theorem load_to_dimension_tables_eq (W : Warehouse) (rows : List Row)
    (W1 : Warehouse) (ls : List LogLevel) (b : Bool)
    (h : load_to_dimension_tables W rows = (W1, ls, b)) :
    loadDimsGo W rows = (W1, b) := by
  unfold load_to_dimension_tables at h
  cases hgo : loadDimsGo W rows with
  | mk Wg bg =>
    rw [hgo] at h
    cases bg
    · have hh : ((Wg, [LogLevel.error], false) : Warehouse × List LogLevel × Bool) =
          (W1, ls, b) := h
      injection hh with hA hrest
      injection hrest with hB hC
      rw [hA, ← hC]
    · have hh : ((Wg, [LogLevel.info], true) : Warehouse × List LogLevel × Bool) =
          (W1, ls, b) := h
      injection hh with hA hrest
      injection hrest with hB hC
      rw [hA, ← hC]

/- Re-running the whole load stage (dimensions then facts) on its own output
state is a no-op: every dimension key and every fact 5-key is already
present, so nothing new is inserted and the flags repeat. -/
theorem fullLoad_idem (W : Warehouse) (rows : List Row) :
    fullLoad ((fullLoad W rows).1) rows = fullLoad W rows := by
  cases hd : load_to_dimension_tables W rows with
  | mk W1 p =>
    cases p with
    | mk lsd bd =>
      cases bd
      · have hfw : fullLoad W rows = (W1, false) := by
          unfold fullLoad
          rw [hd]
        rw [hfw]
        have hgo1 : loadDimsGo W rows = (W1, false) :=
          load_to_dimension_tables_eq W rows W1 lsd false hd
        have hgoV : loadDimsGo W1 rows = (W1, false) :=
          loadDimsGo_stable rows W W1 W1 false hgo1 (wsub_refl W1)
        unfold fullLoad load_to_dimension_tables
        rw [hgoV]
      · have hgo1 : loadDimsGo W rows = (W1, true) :=
          load_to_dimension_tables_eq W rows W1 lsd true hd
        cases hf : loadFactsGo W1 [] rows with
        | mk W2 q =>
          cases q with
          | mk lsf bf =>
            have hdims : dimsEq W2 W1 := by
              have := loadFactsGo_dims rows W1 []
              rw [hf] at this
              exact this
            have hfacts : W1.fact_news ⊆ W2.fact_news := by
              have := loadFactsGo_facts_sub rows W1 []
              rw [hf] at this
              exact this
            have hwsub : wsub W1 W2 :=
              ⟨by rw [hdims.1]; exact List.Subset.refl _,
               by rw [hdims.2.1]; exact List.Subset.refl _,
               by rw [hdims.2.2.1]; exact List.Subset.refl _,
               by rw [hdims.2.2.2.1]; exact List.Subset.refl _,
               by rw [hdims.2.2.2.2]; exact List.Subset.refl _, hfacts⟩
            have hgoV : loadDimsGo W2 rows = (W2, true) :=
              loadDimsGo_stable rows W W1 W2 true hgo1 hwsub
            have hfV : loadFactsGo W2 [] rows = (W2, lsf, bf) :=
              loadFactsGo_stable rows W1 W2 W2 lsf bf hf hdims
                (List.Subset.refl _)
            have hft : fullLoad W rows = (W2, bf) := by
              unfold fullLoad
              rw [hd]
              dsimp only
              unfold load_to_fact_table
              rw [hf]
              cases bf <;> rfl
            rw [hft]
            unfold fullLoad load_to_dimension_tables
            rw [hgoV]
            dsimp only
            unfold load_to_fact_table
            rw [hfV]
            cases bf <;> rfl

/- Uniqueness of the natural keys of every dimension table. -/
def wNodup (W : Warehouse) : Prop :=
  W.dim_date.Nodup ∧ W.dim_category.Nodup ∧ W.dim_source_category.Nodup ∧
  W.dim_tag.Nodup ∧ (W.dim_article.map (fun a => a.2.2)).Nodup

theorem append_singleton_nodup {α : Type} (l : List α) (k : α)
    (hn : l.Nodup) (hk : k ∉ l) : (l ++ [k]).Nodup := by
  rw [List.nodup_append]
  refine ⟨hn, List.nodup_singleton k, ?_⟩
  intro a ha hb
  rw [List.mem_singleton] at hb
  rw [hb] at ha
  exact hk ha

theorem insKey_nodup {α : Type} [DecidableEq α] (l : List α) (k : α)
    (hn : l.Nodup) : (insKey l k).Nodup := by
  unfold insKey
  split
  · exact hn
  · exact append_singleton_nodup l k hn (by assumption)

theorem foldl_insKey_nodup {α : Type} [DecidableEq α] (ts : List α) :
    ∀ l : List α, l.Nodup → (ts.foldl insKey l).Nodup := by
  induction ts with
  | nil => intro l h; exact h
  | cons t ts ih => intro l h; exact ih (insKey l t) (insKey_nodup l t h)

theorem insArticle_urls_nodup (l : List (Value × Value × Value)) (t d u : Value)
    (hn : (l.map (fun a => a.2.2)).Nodup) :
    ((insArticle l t d u).map (fun a => a.2.2)).Nodup := by
  unfold insArticle
  split
  · exact hn
  · rw [List.map_append]
    exact append_singleton_nodup _ u hn (by assumption)

theorem loadDimRow_wNodup (W : Warehouse) (r : Row) (hn : wNodup W) :
    wNodup ((loadDimRow W r).1) := by
  obtain ⟨n1, n2, n3, n4, n5⟩ := hn
  unfold loadDimRow
  split
  · exact ⟨n1, n2, n3, n4, n5⟩
  · split
    · exact ⟨n1, n2, n3, n4, n5⟩
    · rename_i d hpd
      have hA : wNodup (stepDate W d) :=
        ⟨insKey_nodup _ _ n1, n2, n3, n4, n5⟩
      have hB : wNodup (stepCategory (stepDate W d) r) := by
        unfold stepCategory
        split
        · exact ⟨hA.1, insKey_nodup _ _ hA.2.1, hA.2.2.1, hA.2.2.2.1, hA.2.2.2.2⟩
        · exact hA
      have hC : wNodup (stepSource (stepCategory (stepDate W d) r) r) := by
        unfold stepSource
        split
        · exact ⟨hB.1, hB.2.1, insKey_nodup _ _ hB.2.2.1, hB.2.2.2.1, hB.2.2.2.2⟩
        · exact hB
      have hT : ∀ v, wNodup ((stepTags (stepSource (stepCategory (stepDate W d) r) r) v).1) := by
        intro v
        unfold stepTags
        cases v with
        | null => exact hC
        | str s => exact ⟨hC.1, hC.2.1, hC.2.2.1, foldl_insKey_nodup _ _ hC.2.2.2.1, hC.2.2.2.2⟩
        | num q => exact hC
        | date t => exact hC
        | bool b => exact hC
      have hArt : ∀ X : Warehouse, wNodup X → wNodup (stepArticle X r) := by
        intro X hX
        unfold stepArticle
        split
        · exact ⟨hX.1, hX.2.1, hX.2.2.1, hX.2.2.2.1, insArticle_urls_nodup _ _ _ _ hX.2.2.2.2⟩
        · exact hX
      split
      · rename_i W4 heq
        have := hT (rowGet r "tags")
        rw [heq] at this
        exact this
      · rename_i W4 heq
        have h4 := hT (rowGet r "tags")
        rw [heq] at h4
        exact hArt W4 h4

theorem loadDimsGo_wNodup (rows : List Row) :
    ∀ W, wNodup W → wNodup ((loadDimsGo W rows).1) := by
  induction rows with
  | nil => intro W h; exact h
  | cons r rest ih =>
    intro W h
    unfold loadDimsGo
    cases hw : loadDimRow W r with
    | mk W2 b =>
      have h2 : wNodup W2 := by
        have := loadDimRow_wNodup W r h
        rw [hw] at this
        exact this
      cases b
      · exact h2
      · exact ih W2 h2

/-- C2: the warehouse load is idempotent: running load_to_dimension_tables a
second time on its own output state returns exactly the same state, logs and
flag (no natural key is inserted twice, so key uniqueness is preserved), and
re-running the whole load stage (dimensions then facts) on an
already-loaded batch inserts zero new dimension rows and zero new fact rows. -/
theorem c2_load_idempotent :
    (∀ (W : Warehouse) (rows : List Row),
      load_to_dimension_tables ((load_to_dimension_tables W rows).1) rows =
        load_to_dimension_tables W rows) ∧
    (∀ (W : Warehouse) (rows : List Row), wNodup W →
      wNodup ((load_to_dimension_tables W rows).1)) ∧
    (∀ (W : Warehouse) (rows : List Row),
      fullLoad ((fullLoad W rows).1) rows = fullLoad W rows) := by
  refine ⟨load_to_dimension_tables_idem, ?_, fullLoad_idem⟩
  intro W rows hn
  rw [load_to_dimension_tables_fst]
  exact loadDimsGo_wNodup rows W hn

/-- C2 witness: loading the scenario batch twice from the empty warehouse
gives the same state as loading it once, and key uniqueness holds. -/
theorem c2_load_idempotent_witness :
    (load_to_dimension_tables ((load_to_dimension_tables emptyW [c5row]).1) [c5row] =
      load_to_dimension_tables emptyW [c5row]) ∧
    wNodup ((load_to_dimension_tables emptyW [c5row]).1) ∧
    fullLoad ((fullLoad emptyW [c5row]).1) [c5row] = fullLoad emptyW [c5row] :=
  ⟨c2_load_idempotent.1 emptyW [c5row],
   c2_load_idempotent.2.1 emptyW [c5row]
     ⟨List.nodup_nil, List.nodup_nil, List.nodup_nil, List.nodup_nil, by simp [emptyW]⟩,
   c2_load_idempotent.2.2 emptyW [c5row]⟩

/- ------------------------------------------------------------------ -/
/- Column-major data-quality model: check_null_values, impute_value,
   handle_null_values, validate_data_types_and_ranges                  -/
/- ------------------------------------------------------------------ -/

/- The pandas dtypes this pipeline distinguishes. -/
inductive Dtype where
  | int64
  | float64
  | datetime64
  | object
deriving DecidableEq, Repr

/- pd.api.types.is_numeric_dtype. -/
def isNumericDtype : Dtype → Bool
  | Dtype.int64 => true
  | Dtype.float64 => true
  | _ => false

/- One named, dtyped column of a DataFrame. -/
structure Column where
  name : String
  dtype : Dtype
  values : List Value
deriving DecidableEq, Repr

abbrev CFrame := List Column

abbrev CDatasets := List (String × CFrame)

def isPrefixChars : List Char → List Char → Bool
  | [], _ => true
  | _ :: _, [] => false
  | p :: ps, c :: cs => p = c && isPrefixChars ps cs

def containsChars (pat : List Char) : List Char → Bool
  | [] => isPrefixChars pat []
  | c :: cs => isPrefixChars pat (c :: cs) || containsChars pat cs

/- The column-name test of _convert_to_datetime: date or timestamp occurs
in the lowercased name. -/
def nameIsTemporal (s : String) : Bool :=
  containsChars "date".data (s.data.map Char.toLower) ||
    containsChars "timestamp".data (s.data.map Char.toLower)

/- Days since 1970-01-01 of a civil date (standard calendar algorithm). -/
def daysFromCivil (y m d : Int) : Int :=
  let y2 : Int := if m ≤ 2 then y - 1 else y
  let era : Int := Int.fdiv y2 400
  let yoe : Int := y2 - era * 400
  let mp : Int := Int.fmod (m + 9) 12
  let doy : Int := Int.fdiv (153 * mp + 2) 5 + d - 1
  let doe : Int := yoe * 365 + Int.fdiv yoe 4 - Int.fdiv yoe 100 + doy
  era * 146097 + doe - 719468

/- pd.to_datetime on one cell with errors=coerce: dates stay, strings parse
through the day-first grammar (failures coerce to NaT), numbers are read as
nanosecond offsets, everything else coerces to NaT. -/
def coerceCell (v : Value) : Value :=
  match v with
  | Value.date t => Value.date t
  | Value.str s =>
    match parseDateStr s with
    | some p => Value.date (((daysFromCivil (p.year : Int) (p.month : Int) (p.day : Int) * 86400 : Int) : ℚ))
    | none => Value.null
  | Value.num q => Value.date (q / 1000000000)
  | _ => Value.null

/- The in-place temporal coercion of _convert_to_datetime. -/
def convertColumn (c : Column) : Column :=
  if nameIsTemporal c.name then
    ⟨c.name, Dtype.datetime64, c.values.map coerceCell⟩
  else c

def convertFrame (df : CFrame) : CFrame := df.map convertColumn

/- One row of the null summary of check_null_values. -/
structure NullEntry where
  dataset : String
  kolom : String
  tipe : Dtype
  nullCount : Nat
  nullPct : ℚ
  isDate : Bool
deriving DecidableEq, Repr

def countNulls (vs : List Value) : Nat := vs.count Value.null

/- The per-dataset rows of the null summary: one row per column holding at
least one null, with the percentage over the row count. -/
def checkNullEntries (name : String) (df : CFrame) : List NullEntry :=
  df.filterMap (fun c =>
    if countNulls c.values > 0 then
      some ⟨name, c.name, c.dtype, countNulls c.values,
        ((countNulls c.values : ℚ) / (c.values.length : ℚ)) * 100,
        decide (c.dtype = Dtype.datetime64)⟩
    else none)

/- DataQuality.check_null_values: the temporal coercion mutates the stored
datasets in place and persists, so both the coerced datasets and the report
are returned. -/
def check_null_values (ds : CDatasets) : CDatasets × List NullEntry :=
  let ds2 := ds.map (fun p => (p.1, convertFrame p.2))
  (ds2, ds2.flatMap (fun p => checkNullEntries p.1 p.2))

def nonNullVals (vs : List Value) : List Value :=
  vs.filter (fun v => decide (v ≠ Value.null))

/- The numeric view of the non-null cells (timestamps count as their
numeric value, as pandas aggregates datetimes through their int64 view). -/
def numsOf (vs : List Value) : List ℚ :=
  vs.filterMap (fun v => match v with
    | Value.num q => some q
    | Value.date t => some t
    | _ => none)

def meanOpt (l : List ℚ) : Option ℚ :=
  if l.length = 0 then none else some (l.sum / (l.length : ℚ))

def insertSorted {α : Type} (le : α → α → Bool) (a : α) : List α → List α
  | [] => [a]
  | b :: bs => if le a b then a :: b :: bs else b :: insertSorted le a bs

def sortBy {α : Type} (le : α → α → Bool) : List α → List α
  | [] => []
  | a :: as => insertSorted le a (sortBy le as)

def medianOpt (l : List ℚ) : Option ℚ :=
  let s := sortBy (fun a b => decide (a ≤ b)) l
  if s.length = 0 then none
  else if s.length % 2 = 1 then s[s.length / 2]?
  else
    match s[s.length / 2 - 1]?, s[s.length / 2]? with
    | some a, some b => some ((a + b) / 2)
    | _, _ => none

def valueRank : Value → Nat
  | Value.null => 0
  | Value.bool _ => 1
  | Value.num _ => 2
  | Value.date _ => 3
  | Value.str _ => 4

/- A total order on cell values, used only to model the ascending order in
which pandas mode() lists equally frequent values. -/
def valueLe (a b : Value) : Bool :=
  match a, b with
  | Value.num x, Value.num y => decide (x ≤ y)
  | Value.date x, Value.date y => decide (x ≤ y)
  | Value.str x, Value.str y => decide (x ≤ y)
  | Value.bool x, Value.bool y => !x || y
  | _, _ => decide (valueRank a ≤ valueRank b)

/- mode()[0]: the most frequent non-null value, smallest first on ties;
none when every value is null (the KeyError case). -/
def modeOpt (vs : List Value) : Option Value :=
  (sortBy valueLe ((nonNullVals vs).dedup)).argmax (fun v => vs.count v)

/- Series.fillna with a scalar. -/
def fillna (vs : List Value) (w : Value) : List Value :=
  vs.map (fun v => if v = Value.null then w else v)

/- fillna where the scalar itself may be NaN (fillna(NaN) changes nothing). -/
def fillWith (vs : List Value) (o : Option Value) : List Value :=
  match o with
  | none => vs
  | some w => fillna vs w

/- The g interior points of a linear interpolation from a to b. -/
def interpFill (a b : ℚ) (g : Nat) : List ℚ :=
  (List.range g).map (fun i : Nat => a + (b - a) * ((i : ℚ) + 1) / ((g : ℚ) + 1))

/- Series.interpolate() with the default linear method: leading NaNs stay,
interior NaNs are linearly interpolated, trailing NaNs repeat the last
valid value. prev is the last valid value seen, pending counts NaNs
awaiting a right endpoint. -/
def interpGo : Option ℚ → Nat → List (Option ℚ) → List (Option ℚ)
  | prev, pending, [] =>
    match prev with
    | none => List.replicate pending none
    | some a => List.replicate pending (some a)
  | prev, pending, none :: rest => interpGo prev (pending + 1) rest
  | prev, pending, some b :: rest =>
    (match prev with
     | none => List.replicate pending none
     | some a => (interpFill a b pending).map some) ++
      some b :: interpGo (some b) 0 rest

def interpolateQ (l : List (Option ℚ)) : List (Option ℚ) := interpGo none 0 l

def toTimeOpt (v : Value) : Option ℚ :=
  match v with
  | Value.date t => some t
  | _ => none

/- The interpolate branch of impute_value on a datetime column:
interpolate(), then .dt.floor(s) truncates every timestamp to a whole
second. -/
def interpolateDates (vs : List Value) : List Value :=
  (interpolateQ (vs.map toTimeOpt)).map (fun o =>
    match o with
    | some q => Value.date ((⌊q⌋ : ℤ) : ℚ)
    | none => Value.null)

/- The exception outcomes of impute_value: the explicit ValueError for an
unknown method, and the pandas errors its four branches can raise. -/
inductive ImputeError where
  | invalidMethod
  | dtAccessor
  | emptyMode
  | aggTypeError
deriving DecidableEq, Repr

def wrapNum (dt : Dtype) (q : ℚ) : Value :=
  if dt = Dtype.datetime64 then Value.date q else Value.num q

/- DataQuality.impute_value on one column. mean/median aggregate numerics
(a TypeError on object dtype), mode takes the most frequent value (KeyError
when the column is all null), interpolate ends with the .dt accessor, which
raises AttributeError unless the column is datetime. -/
def imputeValue (c : Column) (method : String) : Except ImputeError Column :=
  if method = "mean" then
    match c.dtype with
    | Dtype.object => Except.error ImputeError.aggTypeError
    | _ => Except.ok ⟨c.name, c.dtype,
        fillWith c.values ((meanOpt (numsOf c.values)).map (wrapNum c.dtype))⟩
  else if method = "median" then
    match c.dtype with
    | Dtype.object => Except.error ImputeError.aggTypeError
    | _ => Except.ok ⟨c.name, c.dtype,
        fillWith c.values ((medianOpt (numsOf c.values)).map (wrapNum c.dtype))⟩
  else if method = "mode" then
    match modeOpt c.values with
    | some w => Except.ok ⟨c.name, c.dtype, fillna c.values w⟩
    | none => Except.error ImputeError.emptyMode
  else if method = "interpolate" then
    match c.dtype with
    | Dtype.datetime64 => Except.ok ⟨c.name, c.dtype, interpolateDates c.values⟩
    | _ => Except.error ImputeError.dtAccessor
  else Except.error ImputeError.invalidMethod

/- The third central moment of the non-null sample; pandas skew() is zero
exactly when this is zero (given at least three values), and NaN — which
compares unequal to zero — otherwise. -/
def centralM3 (l : List ℚ) : ℚ :=
  ((l.map (fun x => (x - l.sum / (l.length : ℚ)) ^ 3)).sum)

def skewZero (l : List ℚ) : Bool := decide (3 ≤ l.length ∧ centralM3 l = 0)

/- The type-driven method choice of handle_null_values. -/
def policyMethod (c : Column) : String :=
  if isNumericDtype c.dtype then
    (if skewZero (numsOf c.values) then "mean" else "median")
  else if c.dtype = Dtype.datetime64 then "interpolate"
  else "mode"

def lookupFrame (ds : CDatasets) (name : String) : Option CFrame :=
  match ds.find? (fun p => p.1 == name) with
  | some p => some p.2
  | none => none

def dropColumn (df : CFrame) (cname : String) : CFrame :=
  df.filter (fun c => decide (c.name ≠ cname))

def findColumn (df : CFrame) (cname : String) : Option Column :=
  df.find? (fun c => c.name == cname)

def replaceColumn (df : CFrame) (cname : String) (c2 : Column) : CFrame :=
  df.map (fun c => if c.name = cname then c2 else c)

def updateFrame (ds : CDatasets) (name : String) (df2 : CFrame) : CDatasets :=
  ds.map (fun p => if p.1 = name then (p.1, df2) else p)

/- One report row of handle_null_values: a missing dataset or column is
logged and skipped; a percentage above the threshold drops the column;
otherwise the column is imputed by the type-driven policy (whose exceptions
propagate). -/
def handleEntry (ds : CDatasets) (e : NullEntry) (t : ℚ) :
    Except ImputeError CDatasets :=
  match lookupFrame ds e.dataset with
  | none => Except.ok ds
  | some df =>
    if e.nullPct > t then
      Except.ok (updateFrame ds e.dataset (dropColumn df e.kolom))
    else
      match findColumn df e.kolom with
      | none => Except.ok ds
      | some c =>
        (imputeValue c (policyMethod c)).map
          (fun c2 => updateFrame ds e.dataset (replaceColumn df e.kolom c2))

/- DataQuality.handle_null_values over the whole report, in report order. -/
def handle_null_values (ds : CDatasets) (rep : List NullEntry) (t : ℚ) :
    Except ImputeError CDatasets :=
  rep.foldlM (fun acc e => handleEntry acc e t) ds

/- check_null_values followed by handle_null_values, as transform_data runs
them (with drop_null_threshold = 25). -/
def nullPipeline (ds : CDatasets) (t : ℚ) : Except ImputeError CDatasets :=
  handle_null_values (check_null_values ds).1 (check_null_values ds).2 t

inductive CheckKind where
  | dataType
  | valueRange
deriving DecidableEq, Repr

/- One row of the validation report; only dataset, column, check kind and
the Pass/Fail status are modelled (the Expected/Actual display strings
carry no further information). -/
structure VEntry where
  dataset : String
  column : String
  kind : CheckKind
  passed : Bool
deriving DecidableEq, Repr

def alookupD (l : List (String × Dtype)) (k : String) : Option Dtype :=
  (l.find? (fun p => p.1 == k)).map (fun p => p.2)

def alookupR (l : List (String × ℚ × ℚ)) (k : String) : Option (ℚ × ℚ) :=
  (l.find? (fun p => p.1 == k)).map (fun p => p.2)

/- The all() of the chained comparisons (df >= lo) & (df <= hi): a NaN (or
any non-numeric cell) compares False on both sides. -/
def rangeAll (vs : List Value) (lo hi : ℚ) : Bool :=
  vs.all (fun v => match v with
    | Value.num q => decide (lo ≤ q) && decide (q ≤ hi)
    | _ => false)

def typeEntries (name : String) (c : Column) (et : List (String × Dtype)) :
    List VEntry :=
  match alookupD et c.name with
  | some ed => [⟨name, c.name, CheckKind.dataType, decide (c.dtype = ed)⟩]
  | none => []

def rangeEntries (name : String) (c : Column) (vr : List (String × ℚ × ℚ)) :
    List VEntry :=
  match alookupR vr c.name with
  | some p =>
    if isNumericDtype c.dtype then
      [⟨name, c.name, CheckKind.valueRange, rangeAll c.values p.1 p.2⟩]
    else []
  | none => []

/- DataQuality.validate_data_types_and_ranges: per dataset and column, a
type row when the column has an expected type, then a range row when it has
a declared range and is numeric. -/
def validate_data_types_and_ranges (ds : CDatasets)
    (et : List (String × Dtype)) (vr : List (String × ℚ × ℚ)) : List VEntry :=
  ds.flatMap (fun p => p.2.flatMap (fun c => typeEntries p.1 c et ++ rangeEntries p.1 c vr))

theorem insertSorted_perm {α : Type} (le : α → α → Bool) (a : α) :
    ∀ l : List α, (insertSorted le a l).Perm (a :: l) := by
  intro l
  induction l with
  | nil => exact List.Perm.refl _
  | cons b bs ih =>
    unfold insertSorted
    split
    · exact List.Perm.refl _
    · exact (List.Perm.cons b ih).trans (List.Perm.swap a b bs)

theorem sortBy_perm {α : Type} (le : α → α → Bool) :
    ∀ l : List α, (sortBy le l).Perm l := by
  intro l
  induction l with
  | nil => exact List.Perm.refl _
  | cons a as ih =>
    exact (insertSorted_perm le a (sortBy le as)).trans (List.Perm.cons a ih)

theorem modeOpt_spec (vs : List Value) (w : Value) (h : modeOpt vs = some w) :
    w ≠ Value.null ∧ w ∈ vs ∧
      ∀ v ∈ vs, v ≠ Value.null → vs.count v ≤ vs.count w := by
  have hm0 : w ∈ List.argmax (fun v => vs.count v)
      (sortBy valueLe ((nonNullVals vs).dedup)) := by
    rw [show (List.argmax (fun v => vs.count v)
      (sortBy valueLe ((nonNullVals vs).dedup))) = modeOpt vs from rfl, h]
    rfl
  have hmem : w ∈ sortBy valueLe ((nonNullVals vs).dedup) := List.argmax_mem hm0
  have hmem2 : w ∈ (nonNullVals vs).dedup :=
    ((sortBy_perm valueLe _).mem_iff).mp hmem
  have hmem3 : w ∈ nonNullVals vs := List.mem_dedup.mp hmem2
  have hw := List.mem_filter.mp hmem3
  refine ⟨of_decide_eq_true hw.2, hw.1, ?_⟩
  intro v hv hvn
  have hv3 : v ∈ (nonNullVals vs).dedup :=
    List.mem_dedup.mpr (List.mem_filter.mpr ⟨hv, decide_eq_true hvn⟩)
  have hv4 : v ∈ sortBy valueLe ((nonNullVals vs).dedup) :=
    ((sortBy_perm valueLe _).mem_iff).mpr hv3
  exact List.le_of_mem_argmax hv4 hm0

/- Concrete dataset for claim C3: a numeric column whose only non-null
value lies inside the declared range, plus one null. -/
def c3col : Column := ⟨"age", Dtype.float64, [Value.num 5, Value.null]⟩

def c3ds : CDatasets := [("d", [c3col])]

def c3vr : List (String × ℚ × ℚ) := [("age", 0, 10)]

/-- C3, counterexample: on a numeric column holding one in-range value and
one null, the chained comparison of validate_data_types_and_ranges reports
Fail (a NaN compares False on both bounds), although every non-null value
lies within the declared range — the claim predicts Pass. -/
theorem c3_counterexample :
    validate_data_types_and_ranges c3ds [] c3vr =
      [⟨"d", "age", CheckKind.valueRange, false⟩] ∧
    (∀ v ∈ c3col.values, v ≠ Value.null →
      ∃ q, v = Value.num q ∧ 0 ≤ q ∧ q ≤ 10) := by
  constructor
  · decide
  · intro v hv hnn
    have hv2 : v = Value.num 5 ∨ v = Value.null := by
      simpa [c3col] using hv
    rcases hv2 with h | h
    · exact ⟨5, h, by norm_num⟩
    · exact absurd h hnn

/-- C3 (amended): for every column listed in the value ranges whose runtime
dtype is numeric, validate_data_types_and_ranges emits one range-check row,
and that row passes iff every value of the column is a non-null number
lying within the inclusive range — nulls count as out of range, so a single
null or out-of-range value fails the whole column. -/
theorem c3_range_check (ds : CDatasets) (et : List (String × Dtype))
    (vr : List (String × ℚ × ℚ)) (name : String) (df : CFrame) (c : Column)
    (lo hi : ℚ) (hm : (name, df) ∈ ds) (hc : c ∈ df)
    (hr : alookupR vr c.name = some (lo, hi))
    (hn : isNumericDtype c.dtype = true) :
    (⟨name, c.name, CheckKind.valueRange, rangeAll c.values lo hi⟩ : VEntry) ∈
      validate_data_types_and_ranges ds et vr ∧
    (rangeAll c.values lo hi = true ↔
      ∀ v ∈ c.values, ∃ q, v = Value.num q ∧ lo ≤ q ∧ q ≤ hi) := by
  constructor
  · refine List.mem_flatMap.mpr ⟨(name, df), hm, ?_⟩
    refine List.mem_flatMap.mpr ⟨c, hc, ?_⟩
    refine List.mem_append_right _ ?_
    unfold rangeEntries
    rw [hr]
    dsimp only
    rw [if_pos hn]
    exact List.mem_singleton.mpr rfl
  · unfold rangeAll
    rw [List.all_eq_true]
    constructor
    · intro h v hv
      have hb := h v hv
      cases v with
      | num q =>
        rw [Bool.and_eq_true] at hb
        exact ⟨q, rfl, of_decide_eq_true hb.1, of_decide_eq_true hb.2⟩
      | null => cases hb
      | str s => cases hb
      | date t => cases hb
      | bool b => cases hb
    · intro h v hv
      rcases h v hv with ⟨q, rfl, h1, h2⟩
      rw [Bool.and_eq_true]
      exact ⟨decide_eq_true h1, decide_eq_true h2⟩

def c3wcol : Column := ⟨"age", Dtype.float64, [Value.num 5]⟩

/-- C3 witness: a fully non-null in-range numeric column passes its emitted
range-check row. -/
theorem c3_range_check_witness :
    (⟨"d", "age", CheckKind.valueRange, rangeAll c3wcol.values 0 10⟩ : VEntry) ∈
      validate_data_types_and_ranges [("d", [c3wcol])] [] [("age", 0, 10)] ∧
    rangeAll c3wcol.values 0 10 = true :=
  ⟨(c3_range_check [("d", [c3wcol])] [] [("age", 0, 10)] "d" [c3wcol] c3wcol 0 10
      (by decide) (by decide) (by decide) (by decide)).1,
   by decide⟩

/-- C7, counterexample: interpolate is one of the four valid method names,
yet impute_value raises on a numeric column — the flooring step uses the
.dt accessor, which only datetime columns support — contradicting that the
four names always fill without raising. -/
theorem c7_counterexample :
    imputeValue ⟨"age", Dtype.float64, [Value.num 1, Value.null]⟩ "interpolate" =
      Except.error ImputeError.dtAccessor ∧
    ImputeError.dtAccessor ≠ ImputeError.invalidMethod := by
  exact ⟨rfl, by decide⟩

/-- C7 (amended): impute_value fails with the InvalidMethod error exactly
when the method is none of mean, median, mode, interpolate. Given one of
the four it performs the corresponding fill — mean and median fill nulls
with the numeric mean and median of the non-null values, mode fills with a
most frequent non-null value when one exists (and raises a different error
on an all-null column), interpolate linearly interpolates and then floors
to whole seconds — but the interpolate branch raises a non-InvalidMethod
error on non-temporal columns, because the flooring step needs the
temporal accessor. -/
theorem c7_imputeValue_methods (c : Column) (m : String) :
    (imputeValue c m = Except.error ImputeError.invalidMethod ↔
      (m ≠ "mean" ∧ m ≠ "median" ∧ m ≠ "mode" ∧ m ≠ "interpolate")) ∧
    (isNumericDtype c.dtype = true →
      imputeValue c "mean" = Except.ok ⟨c.name, c.dtype,
        fillWith c.values ((meanOpt (numsOf c.values)).map (wrapNum c.dtype))⟩) ∧
    (isNumericDtype c.dtype = true →
      imputeValue c "median" = Except.ok ⟨c.name, c.dtype,
        fillWith c.values ((medianOpt (numsOf c.values)).map (wrapNum c.dtype))⟩) ∧
    (∀ w, modeOpt c.values = some w →
      imputeValue c "mode" = Except.ok ⟨c.name, c.dtype, fillna c.values w⟩ ∧
      w ≠ Value.null ∧ w ∈ c.values ∧
      ∀ v ∈ c.values, v ≠ Value.null → c.values.count v ≤ c.values.count w) ∧
    (modeOpt c.values = none →
      imputeValue c "mode" = Except.error ImputeError.emptyMode) ∧
    (c.dtype = Dtype.datetime64 →
      imputeValue c "interpolate" =
        Except.ok ⟨c.name, c.dtype, interpolateDates c.values⟩) ∧
    (c.dtype ≠ Dtype.datetime64 →
      imputeValue c "interpolate" = Except.error ImputeError.dtAccessor) := by
  refine ⟨?_, ?_, ?_, ?_, ?_, ?_, ?_⟩
  · unfold imputeValue
    split_ifs with h1 h2 h3 h4
    · constructor
      · intro he
        cases hdt : c.dtype <;> rw [hdt] at he <;> cases he
      · rintro ⟨hne, _, _, _⟩
        exact absurd h1 hne
    · constructor
      · intro he
        cases hdt : c.dtype <;> rw [hdt] at he <;> cases he
      · rintro ⟨_, hne, _, _⟩
        exact absurd h2 hne
    · constructor
      · intro he
        cases hmo : modeOpt c.values <;> rw [hmo] at he <;> cases he
      · rintro ⟨_, _, hne, _⟩
        exact absurd h3 hne
    · constructor
      · intro he
        cases hdt : c.dtype <;> rw [hdt] at he <;> cases he
      · rintro ⟨_, _, _, hne⟩
        exact absurd h4 hne
    · exact ⟨fun _ => ⟨h1, h2, h3, h4⟩, fun _ => rfl⟩
  · intro hn
    unfold imputeValue
    rw [if_pos rfl]
    cases hdt : c.dtype <;> rw [hdt] at hn <;> first
      | rfl
      | cases hn
  · intro hn
    unfold imputeValue
    rw [if_neg (by decide : ¬ ("median" = "mean")), if_pos rfl]
    cases hdt : c.dtype <;> rw [hdt] at hn <;> first
      | rfl
      | cases hn
  · intro w hw
    refine ⟨?_, (modeOpt_spec c.values w hw).1, (modeOpt_spec c.values w hw).2.1,
      (modeOpt_spec c.values w hw).2.2⟩
    unfold imputeValue
    rw [if_neg (by decide : ¬ ("mode" = "mean")),
      if_neg (by decide : ¬ ("mode" = "median")), if_pos rfl, hw]
  · intro hw
    unfold imputeValue
    rw [if_neg (by decide : ¬ ("mode" = "mean")),
      if_neg (by decide : ¬ ("mode" = "median")), if_pos rfl, hw]
  · intro hdt
    unfold imputeValue
    rw [if_neg (by decide : ¬ ("interpolate" = "mean")),
      if_neg (by decide : ¬ ("interpolate" = "median")),
      if_neg (by decide : ¬ ("interpolate" = "mode")), if_pos rfl, hdt]
  · intro hdt
    unfold imputeValue
    rw [if_neg (by decide : ¬ ("interpolate" = "mean")),
      if_neg (by decide : ¬ ("interpolate" = "median")),
      if_neg (by decide : ¬ ("interpolate" = "mode")), if_pos rfl]
    cases hc : c.dtype
    · rfl
    · rfl
    · exact absurd hc hdt
    · rfl

def c7wcol : Column := ⟨"updated", Dtype.datetime64, [Value.null, Value.date 60]⟩

/-- C7 witness: a datetime column takes the interpolate branch without
raising, and an unknown method name is exactly the InvalidMethod error. -/
theorem c7_imputeValue_methods_witness :
    imputeValue c7wcol "interpolate" =
      Except.ok ⟨c7wcol.name, c7wcol.dtype, interpolateDates c7wcol.values⟩ ∧
    imputeValue c7wcol "fancy" = Except.error ImputeError.invalidMethod :=
  ⟨(c7_imputeValue_methods c7wcol "interpolate").2.2.2.2.2.1 (by decide),
   (c7_imputeValue_methods c7wcol "fancy").1.mpr
     ⟨by decide, by decide, by decide, by decide⟩⟩

/- ------------------------------------------------------------------ -/
/- Bookkeeping for handle_null_values (claims C4 and C6)               -/
/- ------------------------------------------------------------------ -/

/- The column stored under dataset n, column name k. -/
def getCol (ds : CDatasets) (n k : String) : Option Column :=
  (lookupFrame ds n).bind (fun df => findColumn df k)

theorem lookupFrame_map (g : String → CFrame → CFrame) (ds : CDatasets)
    (k : String) :
    lookupFrame (ds.map (fun p => (p.1, g p.1 p.2))) k =
      (ds.find? (fun p => p.1 == k)).map (fun p => g p.1 p.2) := by
  unfold lookupFrame
  rw [List.find?_map]
  have hc : ((fun p : String × CFrame => p.1 == k) ∘
      (fun p : String × CFrame => (p.1, g p.1 p.2))) =
      (fun p : String × CFrame => p.1 == k) := by
    funext p; rfl
  rw [hc]
  cases ds.find? (fun p => p.1 == k) with
  | none => rfl
  | some p => rfl

theorem updateFrame_eq_map (ds : CDatasets) (n : String) (df2 : CFrame) :
    updateFrame ds n df2 =
      ds.map (fun p => (p.1, if p.1 = n then df2 else p.2)) := by
  unfold updateFrame
  refine congrArg (fun f => ds.map f) ?_
  funext p
  by_cases hp : p.1 = n
  · rw [if_pos hp, if_pos hp]
  · rw [if_neg hp, if_neg hp]

theorem lookupFrame_update (ds : CDatasets) (n : String) (df2 : CFrame)
    (k : String) :
    lookupFrame (updateFrame ds n df2) k =
      (lookupFrame ds k).map (fun df => if k = n then df2 else df) := by
  rw [updateFrame_eq_map, lookupFrame_map (fun m x => if m = n then df2 else x) ds k]
  unfold lookupFrame
  cases hf : ds.find? (fun p => p.1 == k) with
  | none => rfl
  | some p =>
    have hp1 : p.1 = k := by
      have := List.find?_some hf
      exact of_decide_eq_true this
    show some (if p.1 = n then df2 else p.2) = some (if k = n then df2 else p.2)
    rw [hp1]

theorem updateFrame_keys (ds : CDatasets) (n : String) (df2 : CFrame) :
    (updateFrame ds n df2).map Prod.fst = ds.map Prod.fst := by
  rw [updateFrame_eq_map, List.map_map]
  rfl

theorem findColumn_dropColumn_other (df : CFrame) (k0 k : String)
    (hne : k ≠ k0) :
    findColumn (dropColumn df k0) k = findColumn df k := by
  induction df with
  | nil => rfl
  | cons c rest ih =>
    unfold dropColumn at ih ⊢
    unfold findColumn at ih ⊢
    by_cases hc0 : c.name = k0
    · rw [List.filter_cons]
      have : (decide (c.name ≠ k0)) = false := by
        simp [hc0]
      rw [this]
      simp only [Bool.false_eq_true, if_neg (by simp : ¬ False)]
      have hck : (c.name == k) = false := by
        simp only [beq_eq_false_iff_ne, ne_eq]
        rw [hc0]
        exact fun h => hne h.symm
      rw [List.find?_cons_of_neg _ (by simp [hck])]
      exact ih
    · rw [List.filter_cons]
      have : (decide (c.name ≠ k0)) = true := by
        simp [hc0]
      rw [this]
      simp only [if_pos trivial]
      cases hck : (c.name == k) with
      | true =>
        rw [List.find?_cons_of_pos _ (by simp [hck]),
          List.find?_cons_of_pos _ (by simp [hck])]
      | false =>
        rw [List.find?_cons_of_neg _ (by simp [hck]),
          List.find?_cons_of_neg _ (by simp [hck])]
        exact ih

theorem findColumn_dropColumn_self (df : CFrame) (k0 : String) :
    findColumn (dropColumn df k0) k0 = none := by
  unfold findColumn
  rw [List.find?_eq_none]
  intro c hc
  have := List.of_mem_filter hc
  have hne : c.name ≠ k0 := of_decide_eq_true this
  simp only [beq_iff_eq]
  exact hne

theorem findColumn_replaceColumn_self (df : CFrame) (k0 : String) (c2 : Column)
    (hname : c2.name = k0) (c : Column) (hex : findColumn df k0 = some c) :
    findColumn (replaceColumn df k0 c2) k0 = some c2 := by
  induction df with
  | nil => cases hex
  | cons a rest ih =>
    unfold replaceColumn at ih ⊢
    unfold findColumn at hex ih ⊢
    by_cases ha : a.name = k0
    · rw [List.map_cons, if_pos ha]
      rw [List.find?_cons_of_pos _ (by simp [hname])]
    · rw [List.map_cons, if_neg ha]
      rw [List.find?_cons_of_neg _ (by simp [ha])]
      rw [List.find?_cons_of_neg _ (by simp [ha])] at hex
      exact ih hex

theorem findColumn_replaceColumn_other (df : CFrame) (k0 k : String)
    (c2 : Column) (hname : c2.name = k0) (hne : k ≠ k0) :
    findColumn (replaceColumn df k0 c2) k = findColumn df k := by
  induction df with
  | nil => rfl
  | cons a rest ih =>
    unfold replaceColumn at ih ⊢
    unfold findColumn at ih ⊢
    by_cases ha : a.name = k0
    · rw [List.map_cons, if_pos ha]
      have h1 : (c2.name == k) = false := by
        simp only [beq_eq_false_iff_ne, ne_eq, hname]
        exact fun h => hne h.symm
      have h2 : (a.name == k) = false := by
        simp only [beq_eq_false_iff_ne, ne_eq, ha]
        exact fun h => hne h.symm
      rw [List.find?_cons_of_neg _ (by simp [h1]),
        List.find?_cons_of_neg _ (by simp [h2])]
      exact ih
    · rw [List.map_cons, if_neg ha]
      cases hck : (a.name == k) with
      | true =>
        rw [List.find?_cons_of_pos _ (by simp [hck]),
          List.find?_cons_of_pos _ (by simp [hck])]
      | false =>
        rw [List.find?_cons_of_neg _ (by simp [hck]),
          List.find?_cons_of_neg _ (by simp [hck])]
        exact ih

theorem imputeValue_name (c : Column) (m : String) (c2 : Column)
    (h : imputeValue c m = Except.ok c2) : c2.name = c.name ∧ c2.dtype = c.dtype := by
  unfold imputeValue at h
  split_ifs at h
  · cases hdt : c.dtype <;> rw [hdt] at h
    · injection h with h1; rw [← h1]; exact ⟨rfl, rfl⟩
    · injection h with h1; rw [← h1]; exact ⟨rfl, rfl⟩
    · injection h with h1; rw [← h1]; exact ⟨rfl, rfl⟩
    · cases h
  · cases hdt : c.dtype <;> rw [hdt] at h
    · injection h with h1; rw [← h1]; exact ⟨rfl, rfl⟩
    · injection h with h1; rw [← h1]; exact ⟨rfl, rfl⟩
    · injection h with h1; rw [← h1]; exact ⟨rfl, rfl⟩
    · cases h
  · cases hmo : modeOpt c.values <;> rw [hmo] at h
    · cases h
    · injection h with h1; rw [← h1]; exact ⟨rfl, rfl⟩
  · cases hdt : c.dtype <;> rw [hdt] at h
    · cases h
    · cases h
    · injection h with h1; rw [← h1]; exact ⟨rfl, rfl⟩
    · cases h

theorem handleEntry_other (ds : CDatasets) (e : NullEntry) (t : ℚ)
    (r : CDatasets) (n k : String)
    (hne : ¬ (e.dataset = n ∧ e.kolom = k))
    (h : handleEntry ds e t = Except.ok r) :
    getCol r n k = getCol ds n k := by
  unfold handleEntry at h
  cases hlf : lookupFrame ds e.dataset with
  | none =>
    rw [hlf] at h
    injection h with h1
    rw [← h1]
  | some df =>
    rw [hlf] at h
    dsimp only at h
    have hupd : ∀ df2 : CFrame,
        (e.dataset = n → findColumn df2 k = findColumn df k) →
        getCol (updateFrame ds e.dataset df2) n k = getCol ds n k := by
      intro df2 hcol
      unfold getCol
      rw [lookupFrame_update]
      by_cases hdn : n = e.dataset
      · rw [← hdn] at hlf
        rw [hlf]
        show (some (if n = e.dataset then df2 else df)).bind (fun df => findColumn df k) = _
        rw [if_pos hdn]
        show findColumn df2 k = findColumn df k
        exact hcol hdn.symm
      · cases hl2 : lookupFrame ds n with
        | none => rfl
        | some dfn =>
          show (some (if n = e.dataset then df2 else dfn)).bind (fun df => findColumn df k) = _
          rw [if_neg hdn]
    split_ifs at h with hpct
    · injection h with h1
      rw [← h1]
      refine hupd (dropColumn df e.kolom) ?_
      intro hdn
      refine findColumn_dropColumn_other df e.kolom k ?_
      intro hk
      exact hne ⟨hdn, hk.symm⟩
    · cases hfc : findColumn df e.kolom with
      | none =>
        rw [hfc] at h
        injection h with h1
        rw [← h1]
      | some c =>
        rw [hfc] at h
        dsimp only at h
        cases him : imputeValue c (policyMethod c) with
        | error err => rw [him] at h; cases h
        | ok c2 =>
          rw [him] at h
          injection h with h1
          rw [← h1]
          have hcname : c.name = e.kolom := by
            have := List.find?_some hfc
            exact of_decide_eq_true this
          have hc2name : c2.name = e.kolom :=
            (imputeValue_name c (policyMethod c) c2 him).1.trans hcname
          refine hupd (replaceColumn df e.kolom c2) ?_
          intro hdn
          refine findColumn_replaceColumn_other df e.kolom k c2 hc2name ?_
          intro hk
          exact hne ⟨hdn, hk.symm⟩

theorem handle_cons (ds : CDatasets) (e : NullEntry) (rest : List NullEntry)
    (t : ℚ) :
    handle_null_values ds (e :: rest) t =
      (handleEntry ds e t).bind (fun acc => handle_null_values acc rest t) := by
  unfold handle_null_values
  rfl

theorem handle_preserve (rep : List NullEntry) (t : ℚ) :
    ∀ ds r n k, handle_null_values ds rep t = Except.ok r →
      (∀ e ∈ rep, ¬(e.dataset = n ∧ e.kolom = k)) →
      getCol r n k = getCol ds n k := by
  induction rep with
  | nil =>
    intro ds r n k h _
    injection h with h1
    rw [← h1]
  | cons e rest ih =>
    intro ds r n k h hno
    rw [handle_cons] at h
    cases hhe : handleEntry ds e t with
    | error err => rw [hhe] at h; cases h
    | ok ds1 =>
      rw [hhe] at h
      have h2 : handle_null_values ds1 rest t = Except.ok r := h
      rw [ih ds1 r n k h2 (fun e2 he2 => hno e2 (List.mem_cons_of_mem _ he2))]
      exact handleEntry_other ds e t ds1 n k (hno e (List.mem_cons_self _ _)) hhe

theorem handle_append (l1 : List NullEntry) (t : ℚ) :
    ∀ l2 ds, handle_null_values ds (l1 ++ l2) t =
      (handle_null_values ds l1 t).bind (fun m => handle_null_values m l2 t) := by
  induction l1 with
  | nil => intro l2 ds; rfl
  | cons e rest ih =>
    intro l2 ds
    rw [List.cons_append, handle_cons, handle_cons]
    cases hhe : handleEntry ds e t with
    | error err => rfl
    | ok ds1 =>
      show handle_null_values ds1 (rest ++ l2) t = _
      rw [ih l2 ds1]
      rfl

theorem find?_fst_of_nodup {β : Type} (l : List (String × β)) (name : String)
    (b : β) (hk : (l.map Prod.fst).Nodup) (hm : (name, b) ∈ l) :
    l.find? (fun p => p.1 == name) = some (name, b) := by
  induction l with
  | nil => cases hm
  | cons a tl ih =>
    rw [List.map_cons] at hk
    have hk1 : a.1 ∉ tl.map Prod.fst := (List.nodup_cons.mp hk).1
    have hk2 : (tl.map Prod.fst).Nodup := (List.nodup_cons.mp hk).2
    rcases List.mem_cons.mp hm with hm | hm
    · rw [← hm]
      exact List.find?_cons_of_pos _ (by simp)
    · have hne : (a.1 == name) = false := by
        simp only [beq_eq_false_iff_ne, ne_eq]
        intro he
        exact hk1 (by rw [he]; exact List.mem_map.mpr ⟨(name, b), hm, rfl⟩)
      rw [List.find?_cons_of_neg _ (by simp [hne])]
      exact ih hk2 hm

theorem lookupFrame_of_nodup (ds : CDatasets) (name : String) (df : CFrame)
    (hk : (ds.map Prod.fst).Nodup) (hm : (name, df) ∈ ds) :
    lookupFrame ds name = some df := by
  unfold lookupFrame
  rw [find?_fst_of_nodup ds name df hk hm]

theorem findColumn_of_nodup (df : CFrame) (c : Column)
    (hn : (df.map Column.name).Nodup) (hc : c ∈ df) :
    findColumn df c.name = some c := by
  induction df with
  | nil => cases hc
  | cons a tl ih =>
    rw [List.map_cons] at hn
    rcases List.mem_cons.mp hc with h | h
    · rw [← h]
      unfold findColumn
      exact List.find?_cons_of_pos _ (by simp)
    · have hna : (a.name == c.name) = false := by
        simp only [beq_eq_false_iff_ne, ne_eq]
        intro hna
        exact (List.nodup_cons.mp hn).1 (hna ▸ List.mem_map.mpr ⟨c, h, rfl⟩)
      unfold findColumn
      rw [List.find?_cons_of_neg _ (by simp [hna])]
      exact ih (List.nodup_cons.mp hn).2 h

theorem checkNullEntries_mem (name : String) (df : CFrame) (e : NullEntry)
    (he : e ∈ checkNullEntries name df) :
    ∃ c ∈ df, 0 < countNulls c.values ∧
      e = ⟨name, c.name, c.dtype, countNulls c.values,
        ((countNulls c.values : ℚ) / (c.values.length : ℚ)) * 100,
        decide (c.dtype = Dtype.datetime64)⟩ := by
  unfold checkNullEntries at he
  rcases List.mem_filterMap.mp he with ⟨c, hc, hfc⟩
  by_cases h0 : countNulls c.values > 0
  · rw [if_pos h0] at hfc
    injection hfc with h1
    exact ⟨c, hc, h0, h1.symm⟩
  · rw [if_neg h0] at hfc
    cases hfc

theorem checkNullEntries_dataset (name : String) (df : CFrame) (e : NullEntry)
    (he : e ∈ checkNullEntries name df) : e.dataset = name := by
  rcases checkNullEntries_mem name df e he with ⟨c, _, _, h⟩
  rw [h]

theorem checkNullEntries_cons (name : String) (c : Column) (rest : CFrame) :
    checkNullEntries name (c :: rest) =
      (if countNulls c.values > 0 then
        [(⟨name, c.name, c.dtype, countNulls c.values,
          ((countNulls c.values : ℚ) / (c.values.length : ℚ)) * 100,
          decide (c.dtype = Dtype.datetime64)⟩ : NullEntry)] else []) ++
        checkNullEntries name rest := by
  unfold checkNullEntries
  rw [List.filterMap_cons]
  by_cases h0 : countNulls c.values > 0
  · rw [if_pos h0, if_pos h0]
    rfl
  · rw [if_neg h0, if_neg h0]
    rfl

theorem checkNullEntries_kolom_sublist (name : String) (df : CFrame) :
    ((checkNullEntries name df).map (fun e => e.kolom)).Sublist
      (df.map Column.name) := by
  induction df with
  | nil => exact List.Sublist.refl _
  | cons c rest ih =>
    rw [checkNullEntries_cons, List.map_append, List.map_cons]
    by_cases h0 : countNulls c.values > 0
    · rw [if_pos h0]
      exact List.Sublist.cons₂ _ ih
    · rw [if_neg h0]
      rw [List.map_nil, List.nil_append]
      exact List.Sublist.cons _ ih

theorem checkNullEntries_pairs_nodup (name : String) (df : CFrame)
    (hn : (df.map Column.name).Nodup) :
    ((checkNullEntries name df).map (fun e => (e.dataset, e.kolom))).Nodup := by
  have hk : ((checkNullEntries name df).map (fun e => e.kolom)).Nodup :=
    (checkNullEntries_kolom_sublist name df).nodup hn
  have hmap : (checkNullEntries name df).map (fun e => (e.dataset, e.kolom)) =
      ((checkNullEntries name df).map (fun e => e.kolom)).map
        (fun k => (name, k)) := by
    rw [List.map_map]
    refine List.map_congr_left ?_
    intro e he
    show (e.dataset, e.kolom) = (name, e.kolom)
    rw [checkNullEntries_dataset name df e he]
  rw [hmap]
  refine hk.map ?_
  intro k1 k2 h
  injection h

theorem report_pairs_nodup (ds2 : CDatasets)
    (hkeys : (ds2.map Prod.fst).Nodup)
    (hcoln : ∀ p ∈ ds2, (p.2.map Column.name).Nodup) :
    ((ds2.flatMap (fun p => checkNullEntries p.1 p.2)).map
      (fun e => (e.dataset, e.kolom))).Nodup := by
  induction ds2 with
  | nil => exact List.nodup_nil
  | cons p tl ih =>
    rw [List.map_cons] at hkeys
    rw [List.flatMap_cons, List.map_append]
    refine List.Nodup.append ?_ ?_ ?_
    · exact checkNullEntries_pairs_nodup p.1 p.2 (hcoln p (List.mem_cons_self _ _))
    · exact ih (List.nodup_cons.mp hkeys).2
        (fun q hq => hcoln q (List.mem_cons_of_mem _ hq))
    · intro x hx1 hx2
      rcases List.mem_map.mp hx1 with ⟨e1, he1, hx1e⟩
      rcases List.mem_map.mp hx2 with ⟨e2, he2, hx2e⟩
      rcases List.mem_flatMap.mp he2 with ⟨q, hq, he2q⟩
      have h1 : e1.dataset = p.1 := checkNullEntries_dataset p.1 p.2 e1 he1
      have h2 : e2.dataset = q.1 := checkNullEntries_dataset q.1 q.2 e2 he2q
      have hds : e1.dataset = e2.dataset := by
        have h12 := hx1e.trans hx2e.symm
        injection h12
      have hpq : p.1 = q.1 := by rw [← h1, hds, h2]
      refine (List.nodup_cons.mp hkeys).1 ?_
      rw [hpq]
      exact List.mem_map.mpr ⟨q, hq, rfl⟩

theorem report_entry_data (ds2 : CDatasets) (e : NullEntry)
    (hkeys : (ds2.map Prod.fst).Nodup)
    (hcoln : ∀ p ∈ ds2, (p.2.map Column.name).Nodup)
    (he : e ∈ ds2.flatMap (fun p => checkNullEntries p.1 p.2)) :
    ∃ c, getCol ds2 e.dataset e.kolom = some c ∧
      e.kolom = c.name ∧ e.tipe = c.dtype ∧
      e.nullCount = countNulls c.values ∧ 0 < countNulls c.values ∧
      e.nullPct = ((countNulls c.values : ℚ) / (c.values.length : ℚ)) * 100 ∧
      e.isDate = decide (c.dtype = Dtype.datetime64) := by
  rcases List.mem_flatMap.mp he with ⟨p, hp, hep⟩
  rcases checkNullEntries_mem p.1 p.2 e hep with ⟨c, hc, h0, heq⟩
  have hlf : lookupFrame ds2 e.dataset = some p.2 := by
    rw [heq]
    exact lookupFrame_of_nodup ds2 p.1 p.2 hkeys hp
  refine ⟨c, ?_, ?_, ?_, ?_, h0, ?_, ?_⟩
  · unfold getCol
    rw [hlf]
    show findColumn p.2 e.kolom = some c
    rw [heq]
    show findColumn p.2 c.name = some c
    exact findColumn_of_nodup p.2 c (hcoln p hp) hc
  · rw [heq]
  · rw [heq]
  · rw [heq]
  · rw [heq]
  · rw [heq]

theorem handleEntry_self (ds : CDatasets) (e : NullEntry) (t : ℚ)
    (r : CDatasets) (df : CFrame) (c : Column)
    (hlf : lookupFrame ds e.dataset = some df)
    (hfc : findColumn df e.kolom = some c)
    (h : handleEntry ds e t = Except.ok r) :
    (e.nullPct > t → getCol r e.dataset e.kolom = none) ∧
    (¬ e.nullPct > t → ∃ c2, imputeValue c (policyMethod c) = Except.ok c2 ∧
      getCol r e.dataset e.kolom = some c2) := by
  unfold handleEntry at h
  rw [hlf] at h
  dsimp only at h
  constructor
  · intro hgt
    rw [if_pos hgt] at h
    injection h with h1
    rw [← h1]
    unfold getCol
    rw [lookupFrame_update, hlf]
    show (some (if e.dataset = e.dataset then dropColumn df e.kolom else df)).bind
      (fun d => findColumn d e.kolom) = none
    rw [if_pos rfl]
    show findColumn (dropColumn df e.kolom) e.kolom = none
    exact findColumn_dropColumn_self df e.kolom
  · intro hle
    rw [if_neg hle, hfc] at h
    dsimp only at h
    cases him : imputeValue c (policyMethod c) with
    | error err => rw [him] at h; cases h
    | ok c2 =>
      rw [him] at h
      injection h with h1
      refine ⟨c2, rfl, ?_⟩
      rw [← h1]
      unfold getCol
      rw [lookupFrame_update, hlf]
      show (some (if e.dataset = e.dataset then replaceColumn df e.kolom c2 else df)).bind
        (fun d => findColumn d e.kolom) = some c2
      rw [if_pos rfl]
      show findColumn (replaceColumn df e.kolom c2) e.kolom = some c2
      have hcname : c.name = e.kolom := by
        have hfc2 : df.find? (fun x => x.name == e.kolom) = some c := hfc
        have hb := List.find?_some hfc2
        exact eq_of_beq hb
      have hc2name : c2.name = e.kolom :=
        (imputeValue_name c (policyMethod c) c2 him).1.trans hcname
      exact findColumn_replaceColumn_self df e.kolom c2 hc2name c hfc

theorem nodup_split_sides {α β : Type} (g : α → β) (l1 l2 : List α) (e : α)
    (hn : ((l1 ++ e :: l2).map g).Nodup) :
    (∀ x ∈ l1, g x ≠ g e) ∧ (∀ x ∈ l2, g x ≠ g e) := by
  rw [List.map_append, List.map_cons] at hn
  rcases List.nodup_append.mp hn with ⟨hn1, hn2, hdisj⟩
  constructor
  · intro x hx heq
    refine hdisj (List.mem_map.mpr ⟨x, hx, rfl⟩) ?_
    rw [heq]
    exact List.mem_cons_self _ _
  · intro x hx heq
    exact (List.nodup_cons.mp hn2).1 (heq ▸ List.mem_map.mpr ⟨x, hx, rfl⟩)

/- The fate of one reported column through the whole of handle_null_values:
a percentage above the threshold removes it, otherwise it is replaced by
the policy imputation of its pre-pass contents. -/
theorem handle_column_result (ds2 : CDatasets) (rep : List NullEntry) (t : ℚ)
    (e : NullEntry) (r : CDatasets) (c : Column)
    (hnd : (rep.map (fun e2 => (e2.dataset, e2.kolom))).Nodup)
    (he : e ∈ rep)
    (hc : getCol ds2 e.dataset e.kolom = some c)
    (hr : handle_null_values ds2 rep t = Except.ok r) :
    (e.nullPct > t → getCol r e.dataset e.kolom = none) ∧
    (¬ e.nullPct > t → ∃ c2, imputeValue c (policyMethod c) = Except.ok c2 ∧
      getCol r e.dataset e.kolom = some c2) := by
  rcases List.append_of_mem he with ⟨l1, l2, hsplit⟩
  subst hsplit
  have hsides := nodup_split_sides (fun e2 => (e2.dataset, e2.kolom)) l1 l2 e hnd
  rw [handle_append l1 t (e :: l2) ds2] at hr
  cases hm1 : handle_null_values ds2 l1 t with
  | error err => rw [hm1] at hr; cases hr
  | ok mid =>
    rw [hm1] at hr
    have hr2 : handle_null_values mid (e :: l2) t = Except.ok r := hr
    rw [handle_cons] at hr2
    cases hm2 : handleEntry mid e t with
    | error err => rw [hm2] at hr2; cases hr2
    | ok mid2 =>
      rw [hm2] at hr2
      have hr3 : handle_null_values mid2 l2 t = Except.ok r := hr2
      have hpre1 : getCol mid e.dataset e.kolom = some c := by
        rw [handle_preserve l1 t ds2 mid e.dataset e.kolom hm1 ?_]
        · exact hc
        · intro e2 he2 hkey
          refine hsides.1 e2 he2 ?_
          show (e2.dataset, e2.kolom) = (e.dataset, e.kolom)
          rw [hkey.1, hkey.2]
      have hdf : ∃ df, lookupFrame mid e.dataset = some df ∧
          findColumn df e.kolom = some c := by
        unfold getCol at hpre1
        cases hlf : lookupFrame mid e.dataset with
        | none => rw [hlf] at hpre1; cases hpre1
        | some df => rw [hlf] at hpre1; exact ⟨df, rfl, hpre1⟩
      rcases hdf with ⟨df, hlf, hfc⟩
      have hself := handleEntry_self mid e t mid2 df c hlf hfc hm2
      have hpre2 : getCol r e.dataset e.kolom = getCol mid2 e.dataset e.kolom := by
        refine handle_preserve l2 t mid2 r e.dataset e.kolom hr3 ?_
        intro e2 he2 hkey
        refine hsides.2 e2 he2 ?_
        show (e2.dataset, e2.kolom) = (e.dataset, e.kolom)
        rw [hkey.1, hkey.2]
      constructor
      · intro hgt
        rw [hpre2]
        exact hself.1 hgt
      · intro hle
        rcases hself.2 hle with ⟨c2, him, hcol⟩
        exact ⟨c2, him, by rw [hpre2]; exact hcol⟩

/- The length of the leading run of nulls of a column. -/
def leadNulls (vs : List Value) : Nat :=
  (vs.takeWhile (fun v => v == Value.null)).length

theorem interpFill_length (a b : ℚ) (g : Nat) : (interpFill a b g).length = g := by
  unfold interpFill
  rw [List.length_map, List.length_range]

theorem interpGo_length (l : List (Option ℚ)) :
    ∀ prev pending, (interpGo prev pending l).length = pending + l.length := by
  induction l with
  | nil =>
    intro prev pending
    cases prev with
    | none =>
      show (List.replicate pending (none : Option ℚ)).length = pending + ([] : List (Option ℚ)).length
      rw [List.length_replicate]
      rfl
    | some a =>
      show (List.replicate pending (some a)).length = pending + ([] : List (Option ℚ)).length
      rw [List.length_replicate]
      rfl
  | cons o rest ih =>
    intro prev pending
    cases o with
    | none =>
      show (interpGo prev (pending + 1) rest).length = pending + (rest.length + 1)
      rw [ih prev (pending + 1)]
      omega
    | some b =>
      cases prev with
      | none =>
        show (List.replicate pending (none : Option ℚ) ++
          some b :: interpGo (some b) 0 rest).length = pending + (rest.length + 1)
        rw [List.length_append, List.length_replicate, List.length_cons,
          ih (some b) 0]
        omega
      | some a =>
        show ((interpFill a b pending).map some ++
          some b :: interpGo (some b) 0 rest).length = pending + (rest.length + 1)
        rw [List.length_append, List.length_map, interpFill_length,
          List.length_cons, ih (some b) 0]
        omega

theorem interpGo_some_no_null (l : List (Option ℚ)) :
    ∀ a pending, (none : Option ℚ) ∉ interpGo (some a) pending l := by
  induction l with
  | nil =>
    intro a pending h
    have h2 : (none : Option ℚ) ∈ List.replicate pending (some a) := h
    cases List.eq_of_mem_replicate h2
  | cons o rest ih =>
    intro a pending h
    cases o with
    | none => exact ih a (pending + 1) h
    | some b =>
      have h2 : (none : Option ℚ) ∈ (interpFill a b pending).map some ++
          some b :: interpGo (some b) 0 rest := h
      rcases List.mem_append.mp h2 with h3 | h3
      · rcases List.mem_map.mp h3 with ⟨q, _, hq⟩
        cases hq
      · rcases List.mem_cons.mp h3 with h4 | h4
        · cases h4
        · exact ih b 0 h4

theorem interpGo_all_none (l : List (Option ℚ)) (h : ∀ o ∈ l, o = none) :
    ∀ pending, interpGo none pending l =
      List.replicate (pending + l.length) none := by
  induction l with
  | nil => intro pending; rfl
  | cons o rest ih =>
    intro pending
    have ho := h o (List.mem_cons_self _ _)
    subst ho
    show interpGo none (pending + 1) rest =
      List.replicate (pending + (rest.length + 1)) none
    rw [ih (fun o2 ho2 => h o2 (List.mem_cons_of_mem _ ho2)) (pending + 1)]
    congr 1
    omega

theorem interpGo_split (rest : List (Option ℚ)) (b : ℚ) (k : Nat) :
    ∀ pending,
      interpGo none pending (List.replicate k none ++ some b :: rest) =
        List.replicate (pending + k) none ++
          some b :: interpGo (some b) 0 rest := by
  induction k with
  | zero => intro pending; rfl
  | succ k ih =>
    intro pending
    show interpGo none (pending + 1) (List.replicate k none ++ some b :: rest) =
      List.replicate (pending + (k + 1)) none ++
        some b :: interpGo (some b) 0 rest
    rw [ih (pending + 1)]
    have hc : pending + 1 + k = pending + (k + 1) := by omega
    rw [hc]

theorem null_prefix_decomp (vs : List Value)
    (hwf : ∀ v ∈ vs, v = Value.null ∨ ∃ u, v = Value.date u) :
    (∀ v ∈ vs, v = Value.null) ∨
      ∃ u rest, vs =
        List.replicate (leadNulls vs) Value.null ++ Value.date u :: rest := by
  induction vs with
  | nil => exact Or.inl (fun v hv => absurd hv (List.not_mem_nil v))
  | cons a rest ih =>
    rcases hwf a (List.mem_cons_self _ _) with ha | ⟨u, ha⟩
    · subst ha
      rcases ih (fun v hv => hwf v (List.mem_cons_of_mem _ hv)) with h | ⟨u, r2, hr⟩
      · refine Or.inl ?_
        intro v hv
        rcases List.mem_cons.mp hv with h1 | h1
        · exact h1
        · exact h v h1
      · right
        refine ⟨u, r2, ?_⟩
        have hlead : leadNulls (Value.null :: rest) = leadNulls rest + 1 := by
          unfold leadNulls
          rw [List.takeWhile_cons_of_pos (by rfl), List.length_cons]
        rw [hlead, List.replicate_succ, List.cons_append, ← hr]
    · subst ha
      right
      refine ⟨u, rest, ?_⟩
      have hlead : leadNulls (Value.date u :: rest) = 0 := by
        unfold leadNulls
        rw [List.takeWhile_cons_of_neg (by intro hc; cases eq_of_beq hc)]
        rfl
      rw [hlead]
      rfl

/- Series.interpolate().dt.floor(s) on a null-or-datetime column: the
leading run of nulls survives untouched and everything after it is a
non-null timestamp. -/
theorem interpolateDates_shape (vs : List Value)
    (hwf : ∀ v ∈ vs, v = Value.null ∨ ∃ u, v = Value.date u) :
    ∃ tail, interpolateDates vs =
      List.replicate (leadNulls vs) Value.null ++ tail ∧
      Value.null ∉ tail ∧ leadNulls vs + tail.length = vs.length := by
  rcases null_prefix_decomp vs hwf with hall | ⟨u, rest, hdecomp⟩
  · have hlead : leadNulls vs = vs.length := by
      unfold leadNulls
      have h1 : vs.takeWhile (fun v => v == Value.null) = vs := by
        rw [List.takeWhile_eq_self_iff]
        intro v hv
        rw [hall v hv]
        rfl
      rw [h1]
    refine ⟨[], ?_, List.not_mem_nil _, ?_⟩
    · rw [List.append_nil, hlead]
      unfold interpolateDates interpolateQ
      have hmap : vs.map toTimeOpt = List.replicate vs.length none := by
        rw [List.eq_replicate]
        refine ⟨by rw [List.length_map], ?_⟩
        intro o ho
        rcases List.mem_map.mp ho with ⟨v, hv, hov⟩
        rw [← hov, hall v hv]
        rfl
      rw [hmap, interpGo_all_none _ (fun o ho => List.eq_of_mem_replicate ho) 0,
        List.length_replicate, List.map_replicate, Nat.zero_add]
    · rw [hlead]
      rfl
  · have hmap : vs.map toTimeOpt =
        List.replicate (leadNulls vs) none ++ some u :: rest.map toTimeOpt := by
      conv_lhs => rw [hdecomp]
      rw [List.map_append, List.map_cons, List.map_replicate]
      rfl
    refine ⟨(some u :: interpGo (some u) 0 (rest.map toTimeOpt)).map
      (fun o => match o with
        | some q => Value.date ((⌊q⌋ : ℤ) : ℚ)
        | none => Value.null), ?_, ?_, ?_⟩
    · unfold interpolateDates interpolateQ
      rw [hmap, interpGo_split (rest.map toTimeOpt) u (leadNulls vs) 0,
        List.map_append, List.map_replicate, Nat.zero_add]
    · intro h
      rcases List.mem_map.mp h with ⟨o, ho, hback⟩
      cases o with
      | some q => cases hback
      | none =>
        rcases List.mem_cons.mp ho with h1 | h1
        · cases h1
        · exact interpGo_some_no_null _ u 0 h1
    · have hvslen : vs.length = leadNulls vs + (rest.length + 1) := by
        conv_lhs => rw [hdecomp]
        rw [List.length_append, List.length_replicate, List.length_cons]
      rw [List.length_map, List.length_cons, interpGo_length, List.length_map,
        hvslen]
      omega

theorem countNulls_fillna (vs : List Value) (w : Value) (hw : w ≠ Value.null) :
    countNulls (fillna vs w) = 0 := by
  unfold countNulls fillna
  rw [List.count_eq_zero]
  intro h
  rcases List.mem_map.mp h with ⟨v, hv, he⟩
  by_cases hn : v = Value.null
  · rw [if_pos hn] at he
    exact hw he
  · rw [if_neg hn] at he
    exact hn he

theorem exists_nonNull_of_count_lt (vs : List Value)
    (h : countNulls vs < vs.length) : ∃ v ∈ vs, v ≠ Value.null := by
  by_contra hno
  push_neg at hno
  have hall : countNulls vs = vs.length := by
    unfold countNulls
    rw [List.count_eq_length]
    intro b hb
    exact (hno b hb).symm
  omega

theorem meanOpt_isSome (l : List ℚ) (h : l ≠ []) : ∃ q, meanOpt l = some q := by
  unfold meanOpt
  rw [if_neg (fun h0 => h (List.length_eq_zero.mp h0))]
  exact ⟨_, rfl⟩

theorem medianOpt_isSome (l : List ℚ) (h : l ≠ []) :
    ∃ q, medianOpt l = some q := by
  unfold medianOpt
  have hlen : (sortBy (fun a b => decide (a ≤ b)) l).length = l.length :=
    (sortBy_perm _ l).length_eq
  have hpos : 0 < (sortBy (fun a b => decide (a ≤ b)) l).length := by
    rw [hlen]
    exact List.length_pos.mpr h
  rw [if_neg (Nat.pos_iff_ne_zero.mp hpos)]
  by_cases hodd : (sortBy (fun a b => decide (a ≤ b)) l).length % 2 = 1
  · rw [if_pos hodd]
    have hidx : (sortBy (fun a b => decide (a ≤ b)) l).length / 2 <
        (sortBy (fun a b => decide (a ≤ b)) l).length :=
      Nat.div_lt_self hpos (by norm_num)
    rw [List.getElem?_eq_getElem hidx]
    exact ⟨_, rfl⟩
  · rw [if_neg hodd]
    have hi2 : (sortBy (fun a b => decide (a ≤ b)) l).length / 2 <
        (sortBy (fun a b => decide (a ≤ b)) l).length :=
      Nat.div_lt_self hpos (by norm_num)
    have hi1 : (sortBy (fun a b => decide (a ≤ b)) l).length / 2 - 1 <
        (sortBy (fun a b => decide (a ≤ b)) l).length :=
      lt_of_le_of_lt (Nat.sub_le _ _) hi2
    rw [List.getElem?_eq_getElem hi1, List.getElem?_eq_getElem hi2]
    exact ⟨_, rfl⟩

theorem modeOpt_isSome (vs : List Value) (v : Value) (hv : v ∈ vs)
    (hnn : v ≠ Value.null) : ∃ w, modeOpt vs = some w := by
  unfold modeOpt
  cases hm : (sortBy valueLe ((nonNullVals vs).dedup)).argmax
      (fun v => vs.count v) with
  | some w => exact ⟨w, rfl⟩
  | none =>
    rw [List.argmax_eq_none] at hm
    have hv2 : v ∈ sortBy valueLe ((nonNullVals vs).dedup) := by
      refine (sortBy_perm valueLe _).mem_iff.mpr ?_
      refine List.mem_dedup.mpr ?_
      unfold nonNullVals
      exact List.mem_filter.mpr ⟨hv, by simpa using hnn⟩
    rw [hm] at hv2
    cases hv2

theorem wrapNum_ne_null (dt : Dtype) (q : ℚ) : wrapNum dt q ≠ Value.null := by
  unfold wrapNum
  by_cases h : dt = Dtype.datetime64
  · rw [if_pos h]
    intro hc
    cases hc
  · rw [if_neg h]
    intro hc
    cases hc

theorem numsOf_ne_nil_of_nonNull (vs : List Value) (v : Value) (hv : v ∈ vs)
    (hnn : v ≠ Value.null)
    (hwf : ∀ w ∈ vs, w = Value.null ∨ ∃ q, w = Value.num q) :
    numsOf vs ≠ [] := by
  rcases hwf v hv with h | ⟨q, h⟩
  · exact absurd h hnn
  · refine List.ne_nil_of_mem (show q ∈ numsOf vs from ?_)
    unfold numsOf
    refine List.mem_filterMap.mpr ⟨v, hv, ?_⟩
    rw [h]

/- What the type-driven imputation leaves behind: a non-temporal column
with at least one non-null value is completely filled, a temporal column
keeps exactly its leading run of nulls. -/
theorem imputeValue_policy_nulls (c c2 : Column)
    (hnn : countNulls c.values < c.values.length)
    (hwfN : isNumericDtype c.dtype = true →
      ∀ v ∈ c.values, v = Value.null ∨ ∃ q, v = Value.num q)
    (hwfD : c.dtype = Dtype.datetime64 →
      ∀ v ∈ c.values, v = Value.null ∨ ∃ u, v = Value.date u)
    (him : imputeValue c (policyMethod c) = Except.ok c2) :
    (c.dtype ≠ Dtype.datetime64 → countNulls c2.values = 0) ∧
    (c.dtype = Dtype.datetime64 → ∃ tail, c2.values =
      List.replicate (leadNulls c.values) Value.null ++ tail ∧
      Value.null ∉ tail ∧
      leadNulls c.values + tail.length = c.values.length) := by
  obtain ⟨v, hv, hvn⟩ := exists_nonNull_of_count_lt c.values hnn
  cases hdt : c.dtype with
  | int64 =>
    have hwf2 := hwfN (by rw [hdt]; rfl)
    have hnums : numsOf c.values ≠ [] :=
      numsOf_ne_nil_of_nonNull _ v hv hvn hwf2
    have hpm0 : policyMethod c =
        (if skewZero (numsOf c.values) then "mean" else "median") := by
      unfold policyMethod
      rw [hdt]
      rfl
    refine ⟨fun _ => ?_, fun h2 => absurd h2 (by decide)⟩
    by_cases hsk : skewZero (numsOf c.values)
    · rw [hpm0, if_pos hsk] at him
      unfold imputeValue at him
      rw [if_pos rfl, hdt] at him
      dsimp only at him
      injection him with h1
      rw [← h1]
      obtain ⟨q, hq⟩ := meanOpt_isSome _ hnums
      show countNulls (fillWith c.values
        ((meanOpt (numsOf c.values)).map (wrapNum Dtype.int64))) = 0
      rw [hq]
      exact countNulls_fillna _ _ (wrapNum_ne_null _ q)
    · rw [hpm0, if_neg hsk] at him
      unfold imputeValue at him
      rw [if_neg (by decide), if_pos rfl, hdt] at him
      dsimp only at him
      injection him with h1
      rw [← h1]
      obtain ⟨q, hq⟩ := medianOpt_isSome _ hnums
      show countNulls (fillWith c.values
        ((medianOpt (numsOf c.values)).map (wrapNum Dtype.int64))) = 0
      rw [hq]
      exact countNulls_fillna _ _ (wrapNum_ne_null _ q)
  | float64 =>
    have hwf2 := hwfN (by rw [hdt]; rfl)
    have hnums : numsOf c.values ≠ [] :=
      numsOf_ne_nil_of_nonNull _ v hv hvn hwf2
    have hpm0 : policyMethod c =
        (if skewZero (numsOf c.values) then "mean" else "median") := by
      unfold policyMethod
      rw [hdt]
      rfl
    refine ⟨fun _ => ?_, fun h2 => absurd h2 (by decide)⟩
    by_cases hsk : skewZero (numsOf c.values)
    · rw [hpm0, if_pos hsk] at him
      unfold imputeValue at him
      rw [if_pos rfl, hdt] at him
      dsimp only at him
      injection him with h1
      rw [← h1]
      obtain ⟨q, hq⟩ := meanOpt_isSome _ hnums
      show countNulls (fillWith c.values
        ((meanOpt (numsOf c.values)).map (wrapNum Dtype.float64))) = 0
      rw [hq]
      exact countNulls_fillna _ _ (wrapNum_ne_null _ q)
    · rw [hpm0, if_neg hsk] at him
      unfold imputeValue at him
      rw [if_neg (by decide), if_pos rfl, hdt] at him
      dsimp only at him
      injection him with h1
      rw [← h1]
      obtain ⟨q, hq⟩ := medianOpt_isSome _ hnums
      show countNulls (fillWith c.values
        ((medianOpt (numsOf c.values)).map (wrapNum Dtype.float64))) = 0
      rw [hq]
      exact countNulls_fillna _ _ (wrapNum_ne_null _ q)
  | datetime64 =>
    have hpm : policyMethod c = "interpolate" := by
      unfold policyMethod
      rw [hdt]
      rfl
    rw [hpm] at him
    unfold imputeValue at him
    rw [if_neg (by decide), if_neg (by decide), if_neg (by decide),
      if_pos rfl, hdt] at him
    dsimp only at him
    injection him with h1
    refine ⟨fun h2 => absurd rfl h2, fun _ => ?_⟩
    rw [← h1]
    exact interpolateDates_shape c.values (hwfD hdt)
  | object =>
    have hpm : policyMethod c = "mode" := by
      unfold policyMethod
      rw [hdt]
      rfl
    rw [hpm] at him
    unfold imputeValue at him
    rw [if_neg (by decide), if_neg (by decide), if_pos rfl] at him
    obtain ⟨w, hw⟩ := modeOpt_isSome c.values v hv hvn
    rw [hw] at him
    dsimp only at him
    injection him with h1
    refine ⟨fun _ => ?_, fun h2 => absurd h2 (by decide)⟩
    rw [← h1]
    show countNulls (fillna c.values w) = 0
    exact countNulls_fillna _ _ (modeOpt_spec c.values w hw).1

theorem check_null_keys (ds : CDatasets) :
    (check_null_values ds).1.map Prod.fst = ds.map Prod.fst := by
  show (ds.map (fun p => (p.1, convertFrame p.2))).map Prod.fst = ds.map Prod.fst
  rw [List.map_map]
  rfl

theorem convertFrame_names (df : CFrame) :
    (convertFrame df).map Column.name = df.map Column.name := by
  unfold convertFrame
  rw [List.map_map]
  refine List.map_congr_left ?_
  intro c _
  show (convertColumn c).name = c.name
  unfold convertColumn
  by_cases h : nameIsTemporal c.name = true
  · rw [if_pos h]
  · rw [if_neg h]

theorem check_null_colnames_nodup (ds : CDatasets)
    (h : ∀ p ∈ ds, (p.2.map Column.name).Nodup) :
    ∀ p2 ∈ (check_null_values ds).1, (p2.2.map Column.name).Nodup := by
  intro p2 hp2
  rcases List.mem_map.mp hp2 with ⟨p, hp, hpe⟩
  rw [← hpe]
  show ((convertFrame p.2).map Column.name).Nodup
  rw [convertFrame_names]
  exact h p hp

theorem count_lt_of_pct_le (cnt len : Nat) (t : ℚ) (h0 : 0 < cnt)
    (hcl : cnt ≤ len)
    (hle : ¬ ((cnt : ℚ) / (len : ℚ)) * 100 > t) (ht : t < 100) :
    cnt < len := by
  rcases Nat.lt_or_ge cnt len with h | h
  · exact h
  · have he : cnt = len := le_antisymm hcl h
    subst he
    have hlen0 : (cnt : ℚ) ≠ 0 := by
      exact_mod_cast Nat.pos_iff_ne_zero.mp h0
    rw [div_self hlen0, one_mul] at hle
    push_neg at hle
    linarith

theorem getCol_mem (ds : CDatasets) (n k : String) (c : Column)
    (h : getCol ds n k = some c) : ∃ p ∈ ds, c ∈ p.2 := by
  unfold getCol at h
  cases hlf : lookupFrame ds n with
  | none => rw [hlf] at h; cases h
  | some df =>
    rw [hlf] at h
    have hfc : findColumn df k = some c := h
    have hdf : ∃ p ∈ ds, p.2 = df := by
      unfold lookupFrame at hlf
      cases hf : ds.find? (fun p => p.1 == n) with
      | none => rw [hf] at hlf; cases hlf
      | some p =>
        rw [hf] at hlf
        injection hlf with h2
        exact ⟨p, List.mem_of_find?_eq_some hf, h2⟩
    rcases hdf with ⟨p, hp, hpdf⟩
    refine ⟨p, hp, ?_⟩
    rw [hpdf]
    have hfc2 : df.find? (fun x => x.name == k) = some c := hfc
    exact List.mem_of_find?_eq_some hfc2

/-- C4: for every entry (dataset, column, null percentage) of the null
report — its dataset and column necessarily exist, being taken from the
stored datasets — handle_null_values with threshold t removes the column
entirely when its null percentage exceeds t. The claim that an imputed
column has zero nulls afterwards holds for the non-temporal columns only:
a temporal column is interpolated, which keeps its leading run of nulls
(see c4_counterexample), so the amended guarantee is: percentage > t →
column absent; otherwise a non-temporal column ends with zero nulls while
a temporal column ends with exactly its leading run of nulls. -/
theorem c4_handleNulls (ds : CDatasets) (t : ℚ) (e : NullEntry) (r : CDatasets)
    (hkeys : (ds.map Prod.fst).Nodup)
    (hcoln : ∀ p ∈ ds, (p.2.map Column.name).Nodup)
    (hwf : ∀ p ∈ (check_null_values ds).1, ∀ c ∈ p.2,
      (isNumericDtype c.dtype = true →
        ∀ v ∈ c.values, v = Value.null ∨ ∃ q, v = Value.num q) ∧
      (c.dtype = Dtype.datetime64 →
        ∀ v ∈ c.values, v = Value.null ∨ ∃ u, v = Value.date u))
    (ht : t < 100)
    (he : e ∈ (check_null_values ds).2)
    (hr : nullPipeline ds t = Except.ok r) :
    (e.nullPct > t → getCol r e.dataset e.kolom = none) ∧
    (¬ e.nullPct > t → ∃ c c2,
      getCol (check_null_values ds).1 e.dataset e.kolom = some c ∧
      getCol r e.dataset e.kolom = some c2 ∧
      (e.isDate = false → countNulls c2.values = 0) ∧
      (e.isDate = true → ∃ tail, c2.values =
        List.replicate (leadNulls c.values) Value.null ++ tail ∧
        Value.null ∉ tail ∧
        leadNulls c.values + tail.length = c.values.length)) := by
  have hkeys2 : ((check_null_values ds).1.map Prod.fst).Nodup := by
    rw [check_null_keys]
    exact hkeys
  have hcoln2 := check_null_colnames_nodup ds hcoln
  have he2 : e ∈ (check_null_values ds).1.flatMap
      (fun p => checkNullEntries p.1 p.2) := he
  obtain ⟨c, hgc, hkol, htip, hcnt, h0, hpct, hdate⟩ :=
    report_entry_data _ e hkeys2 hcoln2 he2
  have hnd : ((check_null_values ds).2.map
      (fun e2 => (e2.dataset, e2.kolom))).Nodup :=
    report_pairs_nodup _ hkeys2 hcoln2
  have hmain := handle_column_result _ _ t e r c hnd he hgc hr
  refine ⟨hmain.1, ?_⟩
  intro hle
  obtain ⟨c2, him, hcol2⟩ := hmain.2 hle
  obtain ⟨p, hp, hcp⟩ := getCol_mem _ _ _ c hgc
  have hwfc := hwf p hp c hcp
  have hclt : countNulls c.values < c.values.length := by
    refine count_lt_of_pct_le (countNulls c.values) c.values.length t h0 ?_ ?_ ht
    · exact List.count_le_length _ _
    · rw [← hpct]
      exact hle
  have himp := imputeValue_policy_nulls c c2 hclt hwfc.1 hwfc.2 him
  refine ⟨c, c2, hgc, hcol2, ?_, ?_⟩
  · intro hdf
    refine himp.1 ?_
    intro hdt
    rw [hdate, hdt] at hdf
    simp at hdf
  · intro hdt
    refine himp.2 ?_
    rw [hdate] at hdt
    exact of_decide_eq_true hdt

/- A concrete temporal column: one leading null, then three timestamps a
minute apart, in a dataset named d. Its null percentage is 25, right at
the drop_null_threshold transform_data uses. -/
def c4col : Column :=
  ⟨"date", Dtype.datetime64,
    [Value.null, Value.date 0, Value.date 60, Value.date 120]⟩

def c4ds : CDatasets := [("d", [c4col])]

def c4imp : Column := ⟨"date", Dtype.datetime64, interpolateDates c4col.values⟩

def c4res : CDatasets := updateFrame c4ds "d" (replaceColumn [c4col] "date" c4imp)

def c4e : NullEntry :=
  ⟨"d", "date", Dtype.datetime64, countNulls c4col.values,
    ((countNulls c4col.values : ℚ) / (c4col.values.length : ℚ)) * 100, true⟩

theorem c4e_pct : ¬ c4e.nullPct > 25 := by
  show ¬ ((countNulls c4col.values : ℚ) / (c4col.values.length : ℚ)) * 100 > 25
  have h1 : countNulls c4col.values = 1 := rfl
  have h2 : c4col.values.length = 4 := rfl
  rw [h1, h2]
  norm_num

theorem c4run : nullPipeline c4ds 25 = Except.ok c4res := by
  show handle_null_values (check_null_values c4ds).1 (check_null_values c4ds).2 25 =
    Except.ok c4res
  have hds : (check_null_values c4ds).1 = c4ds := rfl
  have hrep : (check_null_values c4ds).2 = [c4e] := rfl
  rw [hds, hrep, handle_cons]
  have hhe : handleEntry c4ds c4e 25 = Except.ok c4res := by
    unfold handleEntry
    rw [show lookupFrame c4ds c4e.dataset = some [c4col] from rfl]
    dsimp only
    rw [if_neg c4e_pct]
    rfl
  rw [hhe]
  rfl

/-- C4 counterexample: the dataset c4ds yields exactly one null-report
entry, for the temporal column date with null percentage 25, which does
not exceed the threshold 25; handle_null_values succeeds, yet the imputed
column still contains a null (its leading null survives interpolation),
contradicting the claim that a kept column ends with zero nulls. -/
theorem c4_counterexample :
    c4e ∈ (check_null_values c4ds).2 ∧ ¬ c4e.nullPct > 25 ∧
    nullPipeline c4ds 25 = Except.ok c4res ∧
    getCol c4res c4e.dataset c4e.kolom = some c4imp ∧
    0 < countNulls c4imp.values := by
  refine ⟨?_, c4e_pct, c4run, rfl, ?_⟩
  · show c4e ∈ [c4e]
    exact List.mem_singleton_self c4e
  · decide

theorem c4_handleNulls_witness :
    (c4e.nullPct > 25 → getCol c4res c4e.dataset c4e.kolom = none) ∧
    (¬ c4e.nullPct > 25 → ∃ c c2,
      getCol (check_null_values c4ds).1 c4e.dataset c4e.kolom = some c ∧
      getCol c4res c4e.dataset c4e.kolom = some c2 ∧
      (c4e.isDate = false → countNulls c2.values = 0) ∧
      (c4e.isDate = true → ∃ tail, c2.values =
        List.replicate (leadNulls c.values) Value.null ++ tail ∧
        Value.null ∉ tail ∧
        leadNulls c.values + tail.length = c.values.length)) :=
  c4_handleNulls c4ds 25 c4e c4res (by decide) (by decide)
    (by
      intro p hp c hc
      have hp2 : p = ("d", [convertColumn c4col]) := List.mem_singleton.mp hp
      subst hp2
      have hc2 : c = convertColumn c4col := List.mem_singleton.mp hc
      subst hc2
      refine ⟨fun hn => absurd hn (by decide), fun _ v hv => ?_⟩
      have hv2 : v ∈ [Value.null, Value.date 0, Value.date 60, Value.date 120] := hv
      rcases List.mem_cons.mp hv2 with h | hv3
      · exact Or.inl h
      rcases List.mem_cons.mp hv3 with h | hv4
      · exact Or.inr ⟨0, h⟩
      rcases List.mem_cons.mp hv4 with h | hv5
      · exact Or.inr ⟨60, h⟩
      rcases List.mem_cons.mp hv5 with h | hv6
      · exact Or.inr ⟨120, h⟩
      · exact absurd hv6 (List.not_mem_nil v))
    (by norm_num)
    (show c4e ∈ (check_null_values c4ds).2 from List.mem_singleton_self c4e)
    c4run

/-- C6: for every reported numeric column whose null percentage does not
exceed the threshold, handle_null_values imputes with the mean of the
non-null values when the skewness is zero (pandas skew() is zero exactly
when the third central moment of the at-least-three non-null values is
zero; with fewer values it is NaN, which compares unequal to zero) and
with the median otherwise. -/
theorem c6_skew_mean_median (ds : CDatasets) (t : ℚ) (e : NullEntry)
    (r : CDatasets)
    (hkeys : (ds.map Prod.fst).Nodup)
    (hcoln : ∀ p ∈ ds, (p.2.map Column.name).Nodup)
    (he : e ∈ (check_null_values ds).2)
    (hnum : isNumericDtype e.tipe = true)
    (hle : ¬ e.nullPct > t)
    (hr : nullPipeline ds t = Except.ok r) :
    ∃ c, getCol (check_null_values ds).1 e.dataset e.kolom = some c ∧
      isNumericDtype c.dtype = true ∧
      (skewZero (numsOf c.values) = true →
        getCol r e.dataset e.kolom = some ⟨c.name, c.dtype,
          fillWith c.values ((meanOpt (numsOf c.values)).map (wrapNum c.dtype))⟩) ∧
      (skewZero (numsOf c.values) = false →
        getCol r e.dataset e.kolom = some ⟨c.name, c.dtype,
          fillWith c.values ((medianOpt (numsOf c.values)).map (wrapNum c.dtype))⟩) := by
  have hkeys2 : ((check_null_values ds).1.map Prod.fst).Nodup := by
    rw [check_null_keys]
    exact hkeys
  have hcoln2 := check_null_colnames_nodup ds hcoln
  have he2 : e ∈ (check_null_values ds).1.flatMap
      (fun p => checkNullEntries p.1 p.2) := he
  obtain ⟨c, hgc, hkol, htip, hcnt, h0, hpct, hdate⟩ :=
    report_entry_data _ e hkeys2 hcoln2 he2
  have hnd : ((check_null_values ds).2.map
      (fun e2 => (e2.dataset, e2.kolom))).Nodup :=
    report_pairs_nodup _ hkeys2 hcoln2
  have hmain := handle_column_result _ _ t e r c hnd he hgc hr
  obtain ⟨c2, him, hcol2⟩ := hmain.2 hle
  have hnumc : isNumericDtype c.dtype = true := by
    rw [← htip]
    exact hnum
  refine ⟨c, hgc, hnumc, ?_, ?_⟩
  · intro hsk
    have hpm : policyMethod c = "mean" := by
      unfold policyMethod
      rw [hnumc, if_pos rfl, if_pos hsk]
    rw [hpm] at him
    unfold imputeValue at him
    rw [if_pos rfl] at him
    cases hdtc : c.dtype with
    | int64 =>
      rw [hdtc] at him
      dsimp only at him
      injection him with h1
      rw [h1]
      exact hcol2
    | float64 =>
      rw [hdtc] at him
      dsimp only at him
      injection him with h1
      rw [h1]
      exact hcol2
    | datetime64 =>
      rw [hdtc] at hnumc
      exact absurd hnumc (by decide)
    | object =>
      rw [hdtc] at hnumc
      exact absurd hnumc (by decide)
  · intro hsk
    have hpm : policyMethod c = "median" := by
      unfold policyMethod
      rw [hnumc, if_pos rfl, if_neg (by rw [hsk]; exact Bool.false_ne_true)]
    rw [hpm] at him
    unfold imputeValue at him
    rw [if_neg (by decide), if_pos rfl] at him
    cases hdtc : c.dtype with
    | int64 =>
      rw [hdtc] at him
      dsimp only at him
      injection him with h1
      rw [h1]
      exact hcol2
    | float64 =>
      rw [hdtc] at him
      dsimp only at him
      injection him with h1
      rw [h1]
      exact hcol2
    | datetime64 =>
      rw [hdtc] at hnumc
      exact absurd hnumc (by decide)
    | object =>
      rw [hdtc] at hnumc
      exact absurd hnumc (by decide)

/- A concrete numeric column for the skew policy: one null among the
symmetric sample 1, 2, 3 (third central moment zero, so skew() is 0). -/
def c6col : Column :=
  ⟨"x", Dtype.float64,
    [Value.null, Value.num 1, Value.num 2, Value.num 3]⟩

def c6ds : CDatasets := [("n", [c6col])]

def c6imp : Column :=
  ⟨"x", Dtype.float64,
    fillWith c6col.values ((meanOpt (numsOf c6col.values)).map
      (wrapNum Dtype.float64))⟩

def c6res : CDatasets := updateFrame c6ds "n" (replaceColumn [c6col] "x" c6imp)

def c6e : NullEntry :=
  ⟨"n", "x", Dtype.float64, countNulls c6col.values,
    ((countNulls c6col.values : ℚ) / (c6col.values.length : ℚ)) * 100, false⟩

theorem c6e_pct : ¬ c6e.nullPct > 50 := by
  show ¬ ((countNulls c6col.values : ℚ) / (c6col.values.length : ℚ)) * 100 > 50
  have h1 : countNulls c6col.values = 1 := rfl
  have h2 : c6col.values.length = 4 := rfl
  rw [h1, h2]
  norm_num

theorem c6skew : skewZero (numsOf c6col.values) = true := by
  show skewZero [1, 2, 3] = true
  unfold skewZero
  rw [decide_eq_true_eq]
  refine ⟨Nat.le_refl 3, ?_⟩
  show centralM3 [1, 2, 3] = 0
  unfold centralM3
  simp only [List.map_cons, List.map_nil, List.sum_cons, List.sum_nil,
    List.length_cons, List.length_nil]
  norm_num

theorem c6pm : policyMethod c6col = "mean" := by
  unfold policyMethod
  show (if skewZero (numsOf c6col.values) then "mean" else "median") = "mean"
  rw [c6skew]
  rfl

theorem c6run : nullPipeline c6ds 50 = Except.ok c6res := by
  show handle_null_values (check_null_values c6ds).1 (check_null_values c6ds).2 50 =
    Except.ok c6res
  have hds : (check_null_values c6ds).1 = c6ds := rfl
  have hrep : (check_null_values c6ds).2 = [c6e] := rfl
  rw [hds, hrep, handle_cons]
  have hhe : handleEntry c6ds c6e 50 = Except.ok c6res := by
    unfold handleEntry
    rw [show lookupFrame c6ds c6e.dataset = some [c6col] from rfl]
    dsimp only
    rw [if_neg c6e_pct]
    show (imputeValue c6col (policyMethod c6col)).map
      (fun c2 => updateFrame c6ds c6e.dataset (replaceColumn [c6col] c6e.kolom c2)) =
      Except.ok c6res
    rw [c6pm]
    rfl
  rw [hhe]
  rfl

theorem c6_skew_mean_median_witness :
    ∃ c, getCol (check_null_values c6ds).1 c6e.dataset c6e.kolom = some c ∧
      isNumericDtype c.dtype = true ∧
      (skewZero (numsOf c.values) = true →
        getCol c6res c6e.dataset c6e.kolom = some ⟨c.name, c.dtype,
          fillWith c.values ((meanOpt (numsOf c.values)).map (wrapNum c.dtype))⟩) ∧
      (skewZero (numsOf c.values) = false →
        getCol c6res c6e.dataset c6e.kolom = some ⟨c.name, c.dtype,
          fillWith c.values ((medianOpt (numsOf c.values)).map (wrapNum c.dtype))⟩) :=
  c6_skew_mean_median c6ds 50 c6e c6res (by decide) (by decide)
    (show c6e ∈ (check_null_values c6ds).2 from List.mem_singleton_self c6e)
    (by decide) c6e_pct c6run

end ETL
